import Mathlib

/-!
Verification of the StGit stack engine core against its specification.

The development shallowly embeds the Rust sources:
  - `src/stack/stack.rs`: the `Stack` handle (`from_branch`, `deinitialize`,
    `log_external_mods`, `is_head_top`, `check_head_top_mismatch`) and the
    patch-reference reconciliation pass `ensure_patch_refs`;
  - `src/hook.rs`: `get_hook_path`, `run_pre_commit_hook`, `run_commit_msg_hook`.

Rust strings are embedded as `List Char`; the git reference store is an
association list from reference names to targets, with compare-and-swap
update semantics as described by the specification of the object-store
adapter.  Code of sibling modules that is not part of the shown sources
(`StackState` internals, `PatchName` validation, the stack-format upgrade,
and the external git/filesystem/process collaborators) is modelled from the
specification; each such definition carries a doc comment saying so.
-/

set_option autoImplicit false

/-- Byte/character strings of the Rust sources, embedded as lists of characters. -/
abbrev Str := List Char

/-- Commit object of the content-addressed store: an id plus parent ids.
Only the fields the stack engine inspects are modelled. -/
structure Commit where
  id : Nat
  parents : List Nat
deriving DecidableEq, Repr

/-- Target of a git reference: either a direct (peeled) commit id or a
symbolic reference to another reference name. -/
inductive RefTarget where
  | peeled (id : Nat)
  | symbolic (name : Str)
deriving DecidableEq, Repr

/-- Reference store: an association list from reference names to targets. -/
abbrev RefStore := List (Str × RefTarget)

/-- Modelled from the spec: read a reference from the store by name
(object-store adapter operation, section 6). -/
def lookupRef (store : RefStore) (name : Str) : Option RefTarget :=
  (store.find? (fun r => decide (r.1 = name))).map (fun r => r.2)

/-- Modelled from the spec: force-update an existing reference to a new
target (object-store adapter operation, section 6).  A missing name is left
unchanged. -/
def setRef (store : RefStore) (name : Str) (t : RefTarget) : RefStore :=
  store.map (fun r => if r.1 = name then (r.1, t) else r)

/-- Modelled from the spec: delete a reference by name (object-store adapter
operation, section 6). -/
def deleteRef (store : RefStore) (name : Str) : RefStore :=
  store.filter (fun r => !decide (r.1 = name))

/-- Modelled from the spec: add a new reference binding to the store. -/
def insertRef (store : RefStore) (name : Str) (t : RefTarget) : RefStore :=
  store ++ [(name, t)]

/-- Expected previous value of a guarded reference edit, as in the
`git_repository::refs::transaction::PreviousValue` variants used by the
sources. -/
inductive PreviousValue where
  | mustNotExist
  | existingMustMatch (t : RefTarget)
deriving DecidableEq, Repr

/-- Error message of a failed must-not-exist reference creation. -/
def mustNotExistErr : Str := "reference must not exist but does".data

/-- Error message of a failed compare-and-swap reference update. -/
def casMismatchErr : Str := "reference target did not match expected value".data

/-- Modelled from the spec: atomic compare-and-swap reference edit
(object-store adapter, sections 5 and 6).  With `mustNotExist` the edit
creates the reference and fails if it is present; with `existingMustMatch t`
the edit requires the current target to equal `t` exactly and fails
otherwise.  A failure is surfaced as an error and nothing is changed. -/
def edit_reference (store : RefStore) (name : Str) (expected : PreviousValue)
    (new_id : Nat) : Except Str RefStore :=
  match expected with
  | .mustNotExist =>
      if lookupRef store name = none then
        .ok (insertRef store name (.peeled new_id))
      else
        .error mustNotExistErr
  | .existingMustMatch t =>
      if lookupRef store name = some t then
        .ok (setRef store name (.peeled new_id))
      else
        .error casMismatchErr

/-- Modelled from the spec: peel a reference target to a direct commit id,
following symbolic references (with fuel bounding the chase). -/
def peelTarget (store : RefStore) : Nat → RefTarget → Option Nat
  | _, .peeled id => some id
  | 0, .symbolic _ => none
  | fuel + 1, .symbolic name =>
      match lookupRef store name with
      | some t => peelTarget store fuel t
      | none => none

/-- Modelled from the spec: character set accepted by patch-name validation
(section 4.1; the `PatchName` module is not among the shown sources). -/
def patchname_char_ok (c : Char) : Bool :=
  c.isAlphanum || c = '-' || c = '_' || c = '.'

/-- Modelled from the spec: patch-name validity (section 4.1): never empty,
all characters from the accepted character set. -/
def patchname_valid (s : Str) : Bool :=
  !s.isEmpty && s.all patchname_char_ok

/-- Validated patch name (spec section 2: "a validated, length-limited,
uniquified name type"). -/
def PatchName := { s : Str // patchname_valid s = true }

instance : DecidableEq PatchName := Subtype.instDecidableEq

/-- Modelled from the spec: parsing a string into a validated patch name;
models `PatchName::from_str` used by `ensure_patch_refs`. -/
def PatchName.from_str (s : Str) : Option PatchName :=
  if h : patchname_valid s = true then some ⟨s, h⟩ else none

/-- Patch descriptor: the committed changeset backing one patch
(spec section 3, "Patch State"). -/
structure PatchState where
  commit : Commit
deriving DecidableEq, Repr

/-- Modelled from the spec: the authoritative stack snapshot (section 3):
the three ordered name lists, the name-to-patch map, the branch head at
snapshot time and the optional back-pointer to the previous snapshot commit.
The `StackState` module itself is not among the shown sources. -/
structure StackState where
  applied : List PatchName
  unapplied : List PatchName
  hidden : List PatchName
  patches : List (PatchName × PatchState)
  head : Commit
  prev : Option Nat
deriving DecidableEq

/-- Look up a patch descriptor by name in a snapshot's patch map. -/
def lookupPatch (patches : List (PatchName × PatchState)) (pn : PatchName) :
    Option PatchState :=
  (patches.find? (fun p => decide (p.1 = pn))).map (fun p => p.2)

/-- Repository state visible to the stack engine: the reference store, the
commit objects, the decoded stack-state snapshots keyed by their commit id,
the git configuration sections, and a fresh-id source standing in for
content addressing of newly written objects. -/
structure Repo where
  refs : RefStore
  commits : List Commit
  states : List (Nat × StackState)
  config_sections : List Str
  nextId : Nat
deriving DecidableEq

/-- Find a commit object in the store by id; models
`Repository::find_object` followed by `try_into_commit`. -/
def find_object (repo : Repo) (id : Nat) : Option Commit :=
  repo.commits.find? (fun c => decide (c.id = id))

/-- Modelled from the spec: `StackState::new(head)` (section 4.2): the
empty snapshot with all three lists empty, no previous snapshot, and the
given branch head. -/
def StackState.new (head : Commit) : StackState :=
  { applied := [], unapplied := [], hidden := [], patches := [], head := head, prev := none }

/-- Modelled from the spec: `StackState::advance_head` (section 4.2): a new
snapshot identical in patch lists but with `head` replaced and `prev` set to
the given previous state commit. -/
def StackState.advance_head (state : StackState) (new_head : Commit)
    (prev_commit : Commit) : StackState :=
  { state with head := new_head, prev := some prev_commit.id }

/-- Modelled from the spec: `StackState::commit` (section 4.2): serializes
the snapshot into a new commit in the store, returning its id, and, if a
target reference name is given, updates that reference to point at the new
commit (creating it if absent).  Fresh ids come from the repository's id
source. -/
def StackState.commit (state : StackState) (repo : Repo) (target : Option Str)
    (_message : Str) : Repo × Nat :=
  let cid := repo.nextId
  let commitObj : Commit := { id := cid, parents := state.prev.toList }
  let repo' : Repo :=
    { repo with
      commits := commitObj :: repo.commits
      states := (cid, state) :: repo.states
      nextId := repo.nextId + 1 }
  match target with
  | none => (repo', cid)
  | some refname =>
      let refs' :=
        if lookupRef repo'.refs refname = none then
          insertRef repo'.refs refname (.peeled cid)
        else
          setRef repo'.refs refname (.peeled cid)
      ({ repo' with refs := refs' }, cid)

/-- Look up a decoded stack-state snapshot by its commit id; models
`StackState::from_commit` (decode failure when absent). -/
def StackState.from_commit (repo : Repo) (cid : Nat) : Option StackState :=
  (repo.states.find? (fun p => decide (p.1 = cid))).map (fun p => p.2)

/-- Stack handle bound to one branch, as in `struct Stack` of
`src/stack/stack.rs` (the repository pointer and branch wrapper are
represented by the explicitly passed `Repo` values). -/
structure Stack where
  branch_name : Str
  branch_head : Commit
  stack_refname : Str
  base : Commit
  state : StackState
  is_initialized : Bool
deriving DecidableEq

/-- Policy for stack initialization, as in `enum InitializationPolicy` of
`src/stack/stack.rs`.  Constructor names are shortened from the source's
`AutoInitialize` and `MustInitialize`. -/
inductive InitializationPolicy where
  | AutoInit
  | MustInit
  | RequireInitialized
  | AllowUninitialized
deriving DecidableEq, Repr

/-- Reference name of the stack state for a branch, as in
`state_refname_from_branch_name`: `refs/stacks/<branch>`. -/
def state_refname_from_branch_name (branch_name : Str) : Str :=
  "refs/stacks/".data ++ branch_name

/-- Reference name for a patch in a branch, as in `get_patch_refname`:
`refs/patches/<branch>/<patch_spec>`. -/
def get_patch_refname (branch_name : Str) (patch_spec : Str) : Str :=
  "refs/patches/".data ++ branch_name ++ "/".data ++ patch_spec

/-- Message of the panicking unwrap of a missing first parent in
`Stack::from_branch` (`parent_ids().next().unwrap()`). -/
def panicNoParent : Str := "panic: unwrap of missing first parent".data

/-- Message of the panicking map index `state.patches[first_patchname]` in
`Stack::from_branch` when the name has no entry. -/
def panicNoPatchEntry : Str := "panic: patch map has no entry for name".data

/-- Base-commit computation of `Stack::from_branch` (the body of the
`if let Some(first_patchname) = state.applied.first()` expression): the
parent of the first applied patch, or the branch head if none applied.
The panicking unwrap of a missing first parent is modelled as the
distinguished error `panicNoParent`. -/
def compute_base (repo : Repo) (state : StackState) (branch_head : Commit) :
    Except Str Commit :=
  match state.applied.head? with
  | none => .ok branch_head
  | some first_patchname =>
    match lookupPatch state.patches first_patchname with
    | none => .error panicNoPatchEntry
    | some patchdesc =>
      match patchdesc.commit.parents.head? with
      | none => .error panicNoParent
      | some parent_id =>
        match find_object repo parent_id with
        | none => .error "object not found".data
        | some parent_commit => .ok parent_commit

/-- Predicate form of `Stack::is_head_top`: whether the stack state's
recorded head commit id equals the branch head commit id. -/
def is_head_top (stack : Stack) : Bool :=
  decide (stack.state.head.id = stack.branch_head.id)

/-- Error message of `Stack::check_head_top_mismatch`. -/
def headTopMismatchErr : Str :=
  "HEAD and stack top are not the same".data

/-- Embedding of `Stack::check_head_top_mismatch`: ok when the applied list
is empty or the recorded head matches the branch head, an error otherwise. -/
def check_head_top_mismatch (stack : Stack) : Except Str Unit :=
  if stack.state.applied.isEmpty || is_head_top stack then
    .ok ()
  else
    .error headTopMismatchErr

section HookModel

/-- Filesystem path: an absoluteness flag plus components.  Joining with an
absolute path replaces the base, as `std::path::FsPath::join` does. -/
structure FsPath where
  absolute : Bool
  components : List Str
deriving DecidableEq

/-- FsPath join, as `FsPath::join`: an absolute right operand replaces the
left. -/
def FsPath.join (p q : FsPath) : FsPath :=
  if q.absolute then q else ⟨p.absolute, p.components ++ q.components⟩

/-- Join a single relative component onto a path. -/
def FsPath.joinName (p : FsPath) (s : Str) : FsPath :=
  ⟨p.absolute, p.components ++ [s]⟩

/-- Exit status of a spawned hook process: a normal exit with a code, or
termination without one (e.g. by signal), in which case
`status.code()` is `None`. -/
inductive ExitStatus where
  | exited (code : Int)
  | signaled
deriving DecidableEq, Repr

/-- Whether the status is success, as `ExitStatus::success`: a normal exit
with code zero. -/
def ExitStatus.success : ExitStatus → Bool
  | .exited c => decide (c = 0)
  | .signaled => false

/-- The exit code with a default, as `status.code().unwrap_or(d)`. -/
def ExitStatus.codeOr : ExitStatus → Int → Int
  | .exited c, _ => c
  | .signaled, d => d

/-- Modelled from the spec: the state of a hook script file on disk
(section 6): missing, present but not a regular file, present but not
executable, or executable, in which case running it yields an exit status
and, for the commit-msg hook, a rewrite of the message file contents. -/
inductive HookFile where
  | missing
  | notFile
  | notExecutable
  | executable (st : ExitStatus) (rewrite : Str → Str)

/-- Modelled from the spec: the repository facts `get_hook_path` and the
hook runners consult: the `core.hookspath` configuration value, the git
administrative directory, the optional working-tree root, bareness, and the
hook files on disk. -/
structure HookRepo where
  hookspath : Option FsPath
  git_dir : FsPath
  work_dir : Option FsPath
  is_bare : Bool
  files : FsPath → HookFile

/-- Errors of the hook layer: path-resolution failure, a hook that ran and
failed, carrying the hook name and its exit code, or a modelled panic. -/
inductive HookError where
  | pathError (msg : Str)
  | hookFailed (hook_name : Str) (code : Int)
  | panicked (msg : Str)

/-- Embedding of `get_hook_path`: the configured `core.hookspath` if
absolute; otherwise relative to the git directory for bare repositories or
to the working-tree root for non-bare ones (an error if the latter is
absent); the default `<git-dir>/hooks` when unset.  The hook name is joined
onto the resolved root. -/
def get_hook_path (repo : HookRepo) (hook_name : Str) : Except Str FsPath :=
  match repo.hookspath with
  | none => .ok ((repo.git_dir.joinName "hooks".data).joinName hook_name)
  | some hooks_path =>
      if hooks_path.absolute then
        .ok (hooks_path.joinName hook_name)
      else if repo.is_bare then
        .ok ((repo.git_dir.join hooks_path).joinName hook_name)
      else
        match repo.work_dir with
        | some work_dir => .ok ((work_dir.join hooks_path).joinName hook_name)
        | none => .error "No workdir found".data

/-- Message of the panicking `work_dir().expect` in `run_pre_commit_hook`,
reached when the repository has no working tree and the hook is about to
run. -/
def workdirPanicMsg : Str :=
  "panic: should not get this far with a bare repo".data

/-- Embedding of `run_pre_commit_hook`: `Ok false` when the hook file is
missing, not a regular file, or not executable; once the hook is found
executable, the source unconditionally unwraps the working directory
(`work_dir().expect(...)`), modelled as the distinguished `panicked` error
when there is none; then `Ok true` when the hook runs and succeeds,
otherwise an error carrying the exit code (`-1` when there is none).  The
`use_editor` flag only selects the child environment and does not affect
the modelled result. -/
def run_pre_commit_hook (repo : HookRepo) (_use_editor : Bool) :
    Except HookError Bool :=
  match get_hook_path repo "pre-commit".data with
  | .error e => .error (.pathError e)
  | .ok hook_path =>
    match repo.files hook_path with
    | .missing => .ok false
    | .notFile => .ok false
    | .notExecutable => .ok false
    | .executable st _ =>
        match repo.work_dir with
        | none => .error (.panicked workdirPanicMsg)
        | some _ =>
            if st.success then .ok true
            else .error (.hookFailed "pre-commit".data (st.codeOr (-1)))

/-- Embedding of `run_commit_msg_hook`: the message is returned unchanged
when the hook file is missing, not a regular file, or not executable; a
successful run returns the hook's rewrite of the message file; a failing
run is an error carrying the exit code.  Messages are unicode character
lists, on which the source's re-decode with the original encoding is the
identity. -/
def run_commit_msg_hook (repo : HookRepo) (message : Str) (_use_editor : Bool) :
    Except HookError Str :=
  match get_hook_path repo "commit-msg".data with
  | .error e => .error (.pathError e)
  | .ok hook_path =>
    match repo.files hook_path with
    | .missing => .ok message
    | .notFile => .ok message
    | .notExecutable => .ok message
    | .executable st rewrite =>
        if st.success then .ok (rewrite message)
        else .error (.hookFailed "commit-msg".data (st.codeOr (-1)))

end HookModel

/-- One step of the reconciliation loop of `ensure_patch_refs`, iterating
over the snapshot of existing references under the patch-ref namespace
(`it`), the not-yet-matched patches of the stack state (`remaining`), and
the live reference store.  Mirrors the `for mut existing_ref in ...` loop of
`src/stack/stack.rs`: a reference whose stripped name parses to a known
patch is kept when its peeled target already equals the patch's commit id,
force-updated when it points elsewhere, or rewritten from symbolic to
peeled form via a compare-and-swap against its snapshot target; a reference
mapping to no known patch is deleted.  The source also deletes references
whose names are not valid UTF-8; in the character-list embedding every name
is valid unicode, so that branch is vacuous and the invalid-patch-name
deletion covers the rest. -/
def ensure_loop (ns : Str) :
    List (Str × RefTarget) → List (PatchName × PatchState) → RefStore →
    Except Str (RefStore × List (PatchName × PatchState))
  | [], remaining, store => .ok (store, remaining)
  | (name, snap_target) :: rest, remaining, store =>
    let patchname_str := name.drop ns.length
    match PatchName.from_str patchname_str with
    | none =>
        -- Existing ref does not have a valid patch name: delete.
        ensure_loop ns rest remaining (deleteRef store name)
    | some existing_patchname =>
      match lookupPatch remaining existing_patchname with
      | none =>
          -- Existing ref does not map to a known/current patch: delete.
          ensure_loop ns rest remaining (deleteRef store name)
      | some patchdesc =>
        let remaining' :=
          remaining.filter (fun p => !decide (p.1 = existing_patchname))
        match snap_target with
        | .peeled existing_id =>
          if existing_id = patchdesc.commit.id then
            -- Patch ref is good. Do nothing.
            ensure_loop ns rest remaining' store
          else
            ensure_loop ns rest remaining'
              (setRef store name (.peeled patchdesc.commit.id))
        | .symbolic _ =>
          -- Existing ref is symbolic: rewrite to direct/peeled form.
          match edit_reference store name (.existingMustMatch snap_target)
              patchdesc.commit.id with
          | .error e => .error e
          | .ok store' => ensure_loop ns rest remaining' store'

/-- Creation pass of `ensure_patch_refs`: for every patch that did not
overlap with the existing patch refs, create its reference with a
must-not-exist precondition. -/
def create_missing (ns : Str) :
    List (PatchName × PatchState) → RefStore → Except Str RefStore
  | [], store => .ok store
  | (patchname, patchdesc) :: rest, store =>
    match edit_reference store (ns ++ patchname.val) .mustNotExist
        patchdesc.commit.id with
    | .error e => .error e
    | .ok store' => create_missing ns rest store'

/-- Embedding of `ensure_patch_refs` of `src/stack/stack.rs`: reconcile the
references under the branch's patch-ref namespace with the stack state, by
the loop over the snapshot of existing namespace references followed by the
creation pass for patches still lacking a reference.  Only the reference
store is read and written, so the embedding acts on `RefStore`. -/
def ensure_patch_refs (refs : RefStore) (branch_name : Str)
    (state : StackState) : Except Str RefStore :=
  let ns := get_patch_refname branch_name []
  match ensure_loop ns (refs.filter (fun r => ns.isPrefixOf r.1))
      state.patches refs with
  | .error e => .error e
  | .ok (refs', remaining) => create_missing ns remaining refs'

/-- Error message of `from_branch` for a stack that is already
initialized. -/
def alreadyInitializedErr : Str :=
  "StGit stack already initialized for branch".data

/-- Error message of `from_branch` for a stack that is not initialized. -/
def notInitializedErr : Str :=
  "StGit stack not initialized for branch".data

/-- Modelled from the spec: the unconditional stack-format upgrade step of
`from_branch` (section 4.3; module `stack/upgrade.rs` is not among the shown
sources): on an already-current encoding the migration changes nothing, so
it is the identity on the repository. -/
def stack_upgrade (repo : Repo) (_branch_name : Str) : Except Str Repo :=
  .ok repo

/-- Embedding of `Stack::from_branch`: resolve the stack state reference
name from the branch name, run the format upgrade, and dispatch on whether
the state reference exists, per initialization policy; load or create the
stack state, compute the base commit, reconcile patch references, and
return the stack handle.  Branch resolution is an external collaborator, so
the branch name and its head commit are taken as inputs.  An error carries
the repository as it stands at the failure point, so mutation-freedom of
the error paths is expressible. -/
def from_branch (repo : Repo) (branch_name : Str) (branch_head : Commit)
    (init_policy : InitializationPolicy) : Except (Str × Repo) (Stack × Repo) :=
  let stack_refname := state_refname_from_branch_name branch_name
  match stack_upgrade repo branch_name with
  | .error e => .error (e, repo)
  | .ok repo =>
    match lookupRef repo.refs stack_refname with
    | some state_ref_target =>
      if init_policy = .MustInit then
        .error (alreadyInitializedErr, repo)
      else
        match state_ref_target with
        | .symbolic _ => .error ("panic: symbolic stack state reference".data, repo)
        | .peeled state_commit_id =>
          match StackState.from_commit repo state_commit_id with
          | none => .error ("stack state decode error".data, repo)
          | some state =>
            match compute_base repo state branch_head with
            | .error e => .error (e, repo)
            | .ok base =>
              match ensure_patch_refs repo.refs branch_name state with
              | .error e => .error (e, repo)
              | .ok refs' =>
                .ok ({ branch_name := branch_name, branch_head := branch_head,
                       stack_refname := stack_refname, base := base,
                       state := state, is_initialized := true },
                     { repo with refs := refs' })
    | none =>
      if init_policy = .RequireInitialized then
        .error (notInitializedErr, repo)
      else
        let state := StackState.new branch_head
        let base := branch_head
        let initStep : Repo × Bool :=
          if init_policy = .AutoInit ∨ init_policy = .MustInit then
            ((state.commit repo (some stack_refname) "initialize".data).1, true)
          else
            (repo, false)
        match ensure_patch_refs initStep.1.refs branch_name state with
        | .error e => .error (e, initStep.1)
        | .ok refs' =>
          .ok ({ branch_name := branch_name, branch_head := branch_head,
                 stack_refname := stack_refname, base := base,
                 state := state, is_initialized := initStep.2 },
               { initStep.1 with refs := refs' })

/-- Default commit message of `log_external_mods`. -/
def externalModsMessage : Str :=
  "external modifications - Modifications by tools other than StGit".data

/-- Embedding of `Stack::log_external_mods`: re-commit the stack state with
the updated branch head.  The previous state commit is read from the stack
reference, the snapshot is advanced via `advance_head`, committed without a
target reference, and published with a reference update whose expected
previous value is exactly the previously read state commit id.  An error
carries the repository as it stands at the failure point. -/
def log_external_mods (repo : Repo) (stack : Stack) (message : Option Str) :
    Except (Str × Repo) (Stack × Repo) :=
  if stack.is_initialized = false then
    .error ("panic: attempt to log stack state when uninitialized".data, repo)
  else
    match lookupRef repo.refs stack.stack_refname with
    | none => .error ("stack state reference not found".data, repo)
    | some target =>
      match peelTarget repo.refs repo.refs.length target with
      | none => .error ("could not peel stack state reference".data, repo)
      | some prev_state_commit_id =>
        match find_object repo prev_state_commit_id with
        | none => .error ("object not found".data, repo)
        | some prev_state_commit =>
          let state := stack.state.advance_head stack.branch_head prev_state_commit
          let msg := message.getD externalModsMessage
          let committed := state.commit repo none msg
          match edit_reference committed.1.refs stack.stack_refname
              (.existingMustMatch (.peeled prev_state_commit_id)) committed.2 with
          | .error e => .error (e, committed.1)
          | .ok refs' =>
            .ok ({ stack with state := state }, { committed.1 with refs := refs' })

/-- Name of the branch-scoped StGit configuration section,
`branch.<branch>.stgit`. -/
def branch_stgit_section (branch_name : Str) : Str :=
  "branch.".data ++ branch_name ++ ".stgit".data

/-- Modelled from the spec: removal of a configuration section through the
external git layer (`stupid().config_remove_section`), which fails when the
section does not exist. -/
def config_remove_section (sections : List Str) (name : Str) :
    Except Str (List Str) :=
  if name ∈ sections then
    .ok (sections.filter (fun s => !decide (s = name)))
  else
    .error "no such config section".data

/-- Embedding of `Stack::deinitialize` (named `deinit` here): find the
stack state reference (an error if absent), delete every reference under
the branch's patch-ref namespace, delete the state reference, and
best-effort remove the branch-scoped configuration section, ignoring any
error of that removal (the `.ok()` call of the source).  Commit objects are
not touched. -/
def deinit (repo : Repo) (stack : Stack) : Except (Str × Repo) Repo :=
  match lookupRef repo.refs stack.stack_refname with
  | none => .error ("stack state reference not found".data, repo)
  | some _ =>
    let ns := get_patch_refname stack.branch_name []
    let refs₁ := repo.refs.filter (fun r => !(ns.isPrefixOf r.1))
    let refs₂ := deleteRef refs₁ stack.stack_refname
    let config' :=
      match config_remove_section repo.config_sections
          (branch_stgit_section stack.branch_name) with
      | .ok cs => cs
      | .error _ => repo.config_sections
    .ok { repo with refs := refs₂, config_sections := config' }

/-! Lemmas about the reference store. -/

theorem lookupRef_nil (n : Str) : lookupRef [] n = none := rfl

theorem lookupRef_cons (r : Str × RefTarget) (s : RefStore) (n : Str) :
    lookupRef (r :: s) n = if r.1 = n then some r.2 else lookupRef s n := by
  by_cases h : r.1 = n <;> simp [lookupRef, List.find?, h]

theorem lookupRef_setRef_ne (store : RefStore) (name : Str) (t : RefTarget)
    (n : Str) (hn : n ≠ name) :
    lookupRef (setRef store name t) n = lookupRef store n := by
  induction store with
  | nil => rfl
  | cons r s ih =>
    rw [setRef, List.map_cons, lookupRef_cons, lookupRef_cons]
    have hfst : (if r.1 = name then (r.1, t) else r).1 = r.1 := by
      split <;> rfl
    rw [hfst]
    by_cases hrn : r.1 = n
    · rw [if_pos hrn, if_pos hrn]
      have hne : ¬r.1 = name := fun h => hn (hrn ▸ h)
      rw [if_neg hne]
    · rw [if_neg hrn, if_neg hrn]
      exact ih

theorem lookupRef_setRef_eq (store : RefStore) (name : Str) (t : RefTarget) :
    lookupRef (setRef store name t) name =
      (lookupRef store name).map (fun _ => t) := by
  induction store with
  | nil => rfl
  | cons r s ih =>
    rw [setRef, List.map_cons, lookupRef_cons, lookupRef_cons]
    have hfst : (if r.1 = name then (r.1, t) else r).1 = r.1 := by
      split <;> rfl
    rw [hfst]
    by_cases hrn : r.1 = name
    · simp only [if_pos hrn]
      rfl
    · simp only [if_neg hrn]
      exact ih

theorem lookupRef_setRef (store : RefStore) (name : Str) (t : RefTarget)
    (n : Str) :
    lookupRef (setRef store name t) n =
      if n = name then (lookupRef store n).map (fun _ => t)
      else lookupRef store n := by
  by_cases hn : n = name
  · subst hn
    rw [if_pos rfl]
    exact lookupRef_setRef_eq store n t
  · rw [if_neg hn]
    exact lookupRef_setRef_ne store name t n hn

theorem lookupRef_filter_key (store : RefStore) (q : Str → Bool) (n : Str) :
    lookupRef (store.filter (fun r => q r.1)) n =
      if q n then lookupRef store n else none := by
  induction store with
  | nil => by_cases h : q n = true <;> simp [lookupRef_nil, h]
  | cons r s ih =>
    rw [List.filter_cons]
    by_cases hq : q r.1 = true
    · rw [if_pos hq, lookupRef_cons]
      by_cases hrn : r.1 = n
      · have hqn : q n = true := hrn ▸ hq
        rw [if_pos hrn, if_pos hqn, lookupRef_cons, if_pos hrn]
      · rw [if_neg hrn, ih, lookupRef_cons]
        by_cases hqn : q n = true
        · rw [if_pos hqn, if_pos hqn, if_neg hrn]
        · rw [if_neg hqn, if_neg hqn]
    · rw [if_neg hq, ih]
      by_cases hqn : q n = true
      · have hrn : ¬r.1 = n := fun h => hq (h ▸ hqn)
        rw [if_pos hqn, if_pos hqn, lookupRef_cons, if_neg hrn]
      · rw [if_neg hqn, if_neg hqn]

theorem lookupRef_deleteRef (store : RefStore) (name n : Str) :
    lookupRef (deleteRef store name) n =
      if n = name then none else lookupRef store n := by
  have h := lookupRef_filter_key store (fun x => !decide (x = name)) n
  rw [deleteRef]
  rw [h]
  by_cases hn : n = name
  · rw [if_pos hn, if_neg (by simp [hn])]
  · rw [if_neg hn, if_pos (by simp [hn])]

theorem lookupRef_append (s₁ s₂ : RefStore) (n : Str) :
    lookupRef (s₁ ++ s₂) n = (lookupRef s₁ n).or (lookupRef s₂ n) := by
  induction s₁ with
  | nil => simp [lookupRef_nil]
  | cons r s ih =>
    rw [List.cons_append, lookupRef_cons, lookupRef_cons]
    by_cases h : r.1 = n
    · rw [if_pos h, if_pos h]
      rfl
    · rw [if_neg h, if_neg h, ih]

theorem lookupRef_insertRef (store : RefStore) (name : Str) (t : RefTarget)
    (n : Str) :
    lookupRef (insertRef store name t) n =
      (lookupRef store n).or (if name = n then some t else none) := by
  rw [insertRef, lookupRef_append]
  by_cases h : name = n
  · rw [if_pos h, lookupRef_cons, if_pos h]
  · rw [if_neg h, lookupRef_cons, if_neg h]
    rfl

theorem lookupRef_eq_some_of_mem (store : RefStore)
    (hnd : (store.map Prod.fst).Nodup) (r : Str × RefTarget) (hr : r ∈ store) :
    lookupRef store r.1 = some r.2 := by
  induction store with
  | nil => cases hr
  | cons a s ih =>
    rcases List.mem_cons.mp hr with h | h
    · subst h
      rw [lookupRef_cons, if_pos rfl]
    · have ha : a.1 ≠ r.1 := by
        intro hEq
        have hm : r.1 ∈ s.map Prod.fst := List.mem_map_of_mem Prod.fst h
        rw [← hEq] at hm
        exact (List.nodup_cons.mp hnd).1 hm
      rw [lookupRef_cons, if_neg ha]
      exact ih (List.nodup_cons.mp hnd).2 h

theorem mem_of_lookupRef_eq_some (store : RefStore) (n : Str) (t : RefTarget)
    (h : lookupRef store n = some t) : (n, t) ∈ store := by
  induction store with
  | nil => exact Option.noConfusion h
  | cons r s ih =>
    rw [lookupRef_cons] at h
    by_cases hr : r.1 = n
    · rw [if_pos hr] at h
      have hrt : r = (n, t) := by
        cases r with
        | mk a b =>
          cases hr
          cases h
          rfl
      exact hrt ▸ List.mem_cons_self r s
    · rw [if_neg hr] at h
      exact List.mem_cons_of_mem r (ih h)

theorem lookupRef_eq_none_iff_not_mem_keys (store : RefStore) (n : Str) :
    lookupRef store n = none ↔ n ∉ store.map Prod.fst := by
  induction store with
  | nil => simp [lookupRef_nil]
  | cons r s ih =>
    rw [lookupRef_cons, List.map_cons]
    by_cases hrn : r.1 = n
    · rw [if_pos hrn]
      constructor
      · intro h
        exact Option.noConfusion h
      · intro h
        exact absurd (hrn ▸ List.mem_cons_self r.1 (s.map Prod.fst)) h
    · rw [if_neg hrn, ih]
      constructor
      · intro h hmem
        rcases List.mem_cons.mp hmem with h1 | h1
        · exact hrn h1.symm
        · exact h h1
      · intro h h1
        exact h (List.mem_cons_of_mem _ h1)

theorem setRef_map_fst (store : RefStore) (name : Str) (t : RefTarget) :
    (setRef store name t).map Prod.fst = store.map Prod.fst := by
  induction store with
  | nil => rfl
  | cons r s ih =>
    simp only [setRef, List.map_cons]
    have hfst : (if r.1 = name then (r.1, t) else r).1 = r.1 := by
      split <;> rfl
    rw [hfst]
    simp only [setRef] at ih
    rw [ih]

theorem deleteRef_sublist (store : RefStore) (name : Str) :
    List.Sublist (deleteRef store name) store := List.filter_sublist store

theorem lookupRef_eq_none_mono_setRef (store : RefStore) (name : Str)
    (t : RefTarget) (n : Str) (h : lookupRef store n = none) :
    lookupRef (setRef store name t) n = none := by
  rw [lookupRef_setRef]
  by_cases hn : n = name
  · rw [if_pos hn, h]
    rfl
  · rw [if_neg hn]
    exact h

theorem lookupRef_eq_none_mono_deleteRef (store : RefStore) (name n : Str)
    (h : lookupRef store n = none) :
    lookupRef (deleteRef store name) n = none := by
  rw [lookupRef_deleteRef]
  by_cases hn : n = name
  · rw [if_pos hn]
  · rw [if_neg hn]
    exact h

/-! Claim C7: hook path resolution. -/

/-- C7: for every repository configuration, the hook script path is
resolved from the configured core.hookspath if absolute; otherwise, for a
bare repository, relative to the git administrative directory, and
otherwise relative to the working-tree root; and when core.hookspath is
unset, the default git-dir/hooks location is used. -/
theorem c7_get_hook_path_resolution (repo : HookRepo) (hook_name : Str) :
    (repo.hookspath = none →
      get_hook_path repo hook_name =
        .ok ((repo.git_dir.joinName "hooks".data).joinName hook_name)) ∧
    (∀ hp, repo.hookspath = some hp → hp.absolute = true →
      get_hook_path repo hook_name = .ok (hp.joinName hook_name)) ∧
    (∀ hp, repo.hookspath = some hp → hp.absolute = false →
      repo.is_bare = true →
      get_hook_path repo hook_name =
        .ok ((repo.git_dir.join hp).joinName hook_name)) ∧
    (∀ hp wd, repo.hookspath = some hp → hp.absolute = false →
      repo.is_bare = false → repo.work_dir = some wd →
      get_hook_path repo hook_name = .ok ((wd.join hp).joinName hook_name)) := by
  refine ⟨fun h => ?_, fun hp h habs => ?_, fun hp h habs hbare => ?_,
    fun hp wd h habs hbare hwd => ?_⟩
  · rw [get_hook_path, h]
  · rw [get_hook_path, h]
    simp only [habs, if_true]
  · rw [get_hook_path, h]
    simp only [habs, hbare, Bool.false_eq_true, if_false, if_true]
  · rw [get_hook_path, h]
    simp only [habs, hbare, Bool.false_eq_true, if_false, hwd]

/-- Sample absolute filesystem path. -/
def samplePathA : FsPath := ⟨true, ["opt".data, "hooks".data]⟩

/-- Sample relative filesystem path. -/
def samplePathR : FsPath := ⟨false, ["my-hooks".data]⟩

/-- Sample git administrative directory. -/
def sampleGitDir : FsPath := ⟨true, ["repo".data, ".git".data]⟩

/-- Sample working-tree root. -/
def sampleWorkDir : FsPath := ⟨true, ["repo".data]⟩

/-- Sample repository with no core.hookspath configured. -/
def hookRepoDefault : HookRepo :=
  { hookspath := none, git_dir := sampleGitDir,
    work_dir := some sampleWorkDir, is_bare := false,
    files := fun _ => .missing }

/-- Sample repository with an absolute core.hookspath. -/
def hookRepoAbs : HookRepo :=
  { hookRepoDefault with hookspath := some samplePathA }

/-- Sample bare repository with a relative core.hookspath. -/
def hookRepoBare : HookRepo :=
  { hookRepoDefault with hookspath := some samplePathR, is_bare := true }

/-- Sample non-bare repository with a relative core.hookspath. -/
def hookRepoRel : HookRepo :=
  { hookRepoDefault with hookspath := some samplePathR }

/-- Witness for C7: the four resolution cases evaluated at concrete
repositories. -/
theorem c7_get_hook_path_resolution_witness :
    get_hook_path hookRepoDefault "pre-commit".data =
      .ok ((sampleGitDir.joinName "hooks".data).joinName "pre-commit".data) ∧
    get_hook_path hookRepoAbs "pre-commit".data =
      .ok (samplePathA.joinName "pre-commit".data) ∧
    get_hook_path hookRepoBare "pre-commit".data =
      .ok ((sampleGitDir.join samplePathR).joinName "pre-commit".data) ∧
    get_hook_path hookRepoRel "pre-commit".data =
      .ok ((sampleWorkDir.join samplePathR).joinName "pre-commit".data) :=
  ⟨(c7_get_hook_path_resolution hookRepoDefault "pre-commit".data).1 rfl,
   (c7_get_hook_path_resolution hookRepoAbs "pre-commit".data).2.1
     samplePathA rfl rfl,
   (c7_get_hook_path_resolution hookRepoBare "pre-commit".data).2.2.1
     samplePathR rfl rfl rfl,
   (c7_get_hook_path_resolution hookRepoRel "pre-commit".data).2.2.2
     samplePathR sampleWorkDir rfl rfl rfl rfl⟩

/-! Claim C6: hook absence and hook failure handling. -/

/-- C6: a hook file that is missing, not a regular file, or not executable
is treated as hook absent: run_pre_commit_hook returns Ok false and
run_commit_msg_hook returns the message unchanged; a hook that runs (for
the pre-commit hook this requires a working tree, otherwise the source
panics on the unconditional work_dir unwrap) and exits non-zero yields a
fatal error carrying the hook exit code. -/
theorem c6_hook_absent_and_exit_code (repo : HookRepo) (ue : Bool)
    (message : Str) (pre_path msg_path : FsPath)
    (hpre : get_hook_path repo "pre-commit".data = .ok pre_path)
    (hmsg : get_hook_path repo "commit-msg".data = .ok msg_path) :
    ((repo.files pre_path = .missing ∨ repo.files pre_path = .notFile ∨
        repo.files pre_path = .notExecutable) →
      run_pre_commit_hook repo ue = .ok false) ∧
    ((repo.files msg_path = .missing ∨ repo.files msg_path = .notFile ∨
        repo.files msg_path = .notExecutable) →
      run_commit_msg_hook repo message ue = .ok message) ∧
    (∀ st rw c wd, repo.files pre_path = .executable st rw →
      repo.work_dir = some wd → st = .exited c → c ≠ 0 →
      run_pre_commit_hook repo ue =
        .error (.hookFailed "pre-commit".data c)) ∧
    (∀ st rw, repo.files pre_path = .executable st rw →
      repo.work_dir = none →
      run_pre_commit_hook repo ue = .error (.panicked workdirPanicMsg)) ∧
    (∀ st rw c, repo.files msg_path = .executable st rw → st = .exited c →
      c ≠ 0 →
      run_commit_msg_hook repo message ue =
        .error (.hookFailed "commit-msg".data c)) := by
  refine ⟨fun habs => ?_, fun habs => ?_,
    fun st rw c wd hex hwd hst hc => ?_, fun st rw hex hwd => ?_,
    fun st rw c hex hst hc => ?_⟩
  · rw [run_pre_commit_hook, hpre]
    rcases habs with h | h | h <;> simp [h]
  · rw [run_commit_msg_hook, hmsg]
    rcases habs with h | h | h <;> simp [h]
  · subst hst
    rw [run_pre_commit_hook, hpre]
    simp [hex, hwd, ExitStatus.success, ExitStatus.codeOr, hc]
  · rw [run_pre_commit_hook, hpre]
    simp [hex, hwd]
  · subst hst
    rw [run_commit_msg_hook, hmsg]
    simp [hex, ExitStatus.success, ExitStatus.codeOr, hc]

/-- Sample repository whose hooks are present but not executable. -/
def hookRepoNotExec : HookRepo :=
  { hookRepoDefault with files := fun _ => .notExecutable }

/-- Sample repository whose hooks run and exit with code 3. -/
def hookRepoFailing : HookRepo :=
  { hookRepoDefault with files := fun _ => .executable (.exited 3) id }

/-- Sample repository with no working tree but an executable hook. -/
def hookRepoNoWorkdir : HookRepo :=
  { hookRepoDefault with
    work_dir := none
    files := fun _ => .executable (.exited 0) id }

/-- Witness for C6: the absent, failing and no-working-tree cases evaluated
at concrete repositories. -/
theorem c6_hook_absent_and_exit_code_witness :
    run_pre_commit_hook hookRepoNotExec false = .ok false ∧
    run_commit_msg_hook hookRepoNotExec "msg".data false = .ok "msg".data ∧
    run_pre_commit_hook hookRepoFailing false =
      .error (.hookFailed "pre-commit".data 3) ∧
    run_pre_commit_hook hookRepoNoWorkdir false =
      .error (.panicked workdirPanicMsg) ∧
    run_commit_msg_hook hookRepoFailing "msg".data false =
      .error (.hookFailed "commit-msg".data 3) := by
  have h1 := c6_hook_absent_and_exit_code hookRepoNotExec false "msg".data
    ((sampleGitDir.joinName "hooks".data).joinName "pre-commit".data)
    ((sampleGitDir.joinName "hooks".data).joinName "commit-msg".data)
    rfl rfl
  have h2 := c6_hook_absent_and_exit_code hookRepoFailing false "msg".data
    ((sampleGitDir.joinName "hooks".data).joinName "pre-commit".data)
    ((sampleGitDir.joinName "hooks".data).joinName "commit-msg".data)
    rfl rfl
  have h3 := c6_hook_absent_and_exit_code hookRepoNoWorkdir false "msg".data
    ((sampleGitDir.joinName "hooks".data).joinName "pre-commit".data)
    ((sampleGitDir.joinName "hooks".data).joinName "commit-msg".data)
    rfl rfl
  exact ⟨h1.1 (Or.inr (Or.inr rfl)), h1.2.1 (Or.inr (Or.inr rfl)),
    h2.2.2.1 (.exited 3) id 3 sampleWorkDir rfl rfl rfl (by decide),
    h3.2.2.2.1 (.exited 0) id (by rfl) (by rfl),
    h2.2.2.2.2 (.exited 3) id 3 rfl rfl (by decide)⟩

/-! Claim C9: head/top mismatch detection. -/

/-- C9: check_head_top_mismatch returns Ok whenever the applied list is
empty, even when the recorded head differs from the branch head; it returns
an error exactly when the applied list is non-empty and the recorded head
id differs from the branch head id; and is_head_top reports the raw id
comparison regardless of the applied list. -/
theorem c9_check_head_top_mismatch_spec (stack : Stack) :
    (stack.state.applied = [] → check_head_top_mismatch stack = .ok ()) ∧
    (check_head_top_mismatch stack = .error headTopMismatchErr ↔
      stack.state.applied ≠ [] ∧
        stack.state.head.id ≠ stack.branch_head.id) ∧
    is_head_top stack = decide (stack.state.head.id = stack.branch_head.id) := by
  refine ⟨fun h => ?_, ?_, rfl⟩
  · rw [check_head_top_mismatch]
    simp [h]
  · rw [check_head_top_mismatch]
    by_cases hap : stack.state.applied = []
    · simp [hap]
    · by_cases hid : stack.state.head.id = stack.branch_head.id
      · simp [hap, is_head_top, hid, List.isEmpty_iff]
      · simp [hap, is_head_top, hid, List.isEmpty_iff]

/-- Sample patch name. -/
def pn1 : PatchName := ⟨"p1".data, by decide⟩

/-- Second sample patch name. -/
def pn2 : PatchName := ⟨"p2".data, by decide⟩

/-- Sample base commit. -/
def baseCommit : Commit := { id := 5, parents := [] }

/-- Sample patch commit on top of the base commit. -/
def patchCommit1 : Commit := { id := 7, parents := [5] }

/-- Sample stack state with one applied patch. -/
def sampleState1 : StackState :=
  { applied := [pn1], unapplied := [], hidden := [],
    patches := [(pn1, { commit := patchCommit1 })],
    head := patchCommit1, prev := none }

/-- Sample stack whose applied list is empty but whose recorded head
differs from the branch head. -/
def stackEmptyMoved : Stack :=
  { branch_name := "main".data, branch_head := { id := 9, parents := [] },
    stack_refname := state_refname_from_branch_name "main".data,
    base := baseCommit, state := StackState.new baseCommit,
    is_initialized := true }

/-- Sample stack with an applied patch and a branch head that moved away
from the recorded head. -/
def stackTopMoved : Stack :=
  { branch_name := "main".data, branch_head := { id := 9, parents := [] },
    stack_refname := state_refname_from_branch_name "main".data,
    base := baseCommit, state := sampleState1,
    is_initialized := true }

/-- Witness for C9: with no applied patches a moved head is tolerated;
with an applied patch it is an error. -/
theorem c9_check_head_top_mismatch_witness :
    check_head_top_mismatch stackEmptyMoved = .ok () ∧
    check_head_top_mismatch stackTopMoved = .error headTopMismatchErr :=
  ⟨(c9_check_head_top_mismatch_spec stackEmptyMoved).1 rfl,
   (c9_check_head_top_mismatch_spec stackTopMoved).2.1.mpr
     ⟨by decide, by decide⟩⟩

/-! Claim C10: the unconditional first-parent unwrap in base computation. -/

/-- C10: the base computation of from_branch unconditionally unwraps the
first parent of the first applied patch's commit; when every first applied
patch has a patch entry whose commit has at least one parent (the section 3
chain invariant), the panicking branch is unreachable, and when the first
applied patch's commit has no parent the panic branch is reached, so the
precondition is required for from_branch to be total. -/
theorem c10_compute_base_unwrap (repo : Repo) (state : StackState)
    (branch_head : Commit) :
    ((∀ first, state.applied.head? = some first →
        ∃ desc, lookupPatch state.patches first = some desc ∧
          desc.commit.parents ≠ []) →
      compute_base repo state branch_head ≠ .error panicNoParent) ∧
    (∀ first rest desc, state.applied = first :: rest →
      lookupPatch state.patches first = some desc →
      desc.commit.parents = [] →
      compute_base repo state branch_head = .error panicNoParent) := by
  constructor
  · intro hinv
    rw [compute_base]
    cases hap : state.applied.head? with
    | none => simp
    | some first =>
      obtain ⟨desc, hdesc, hpar⟩ := hinv first hap
      cases hps : desc.commit.parents with
      | nil => exact absurd hps hpar
      | cons p ps =>
        simp only [hdesc, hps, List.head?]
        cases hfo : find_object repo p with
        | none =>
          simp only [hfo]
          intro h
          have h2 : "object not found".data = panicNoParent := by
            injection h
          exact absurd h2 (by decide)
        | some obj => simp [hfo]
  · intro first rest desc hap hdesc hpar
    rw [compute_base, hap]
    simp only [List.head?, hdesc, hpar]

/-- Sample repository containing the base and patch commits and the
decoded sample state. -/
def sampleRepo1 : Repo :=
  { refs := [(state_refname_from_branch_name "main".data, .peeled 11)],
    commits := [baseCommit, patchCommit1, { id := 11, parents := [] }],
    states := [(11, sampleState1)],
    config_sections := [],
    nextId := 20 }

/-- Sample state whose only applied patch has a parentless commit. -/
def sampleStateNoParent : StackState :=
  { applied := [pn2], unapplied := [], hidden := [],
    patches := [(pn2, { commit := baseCommit })],
    head := baseCommit, prev := none }

/-- Witness for C10: under the chain invariant the panic branch is not
reached, and with a parentless first applied patch it is. -/
theorem c10_compute_base_unwrap_witness :
    compute_base sampleRepo1 sampleState1 baseCommit ≠
      .error panicNoParent ∧
    compute_base sampleRepo1 sampleStateNoParent baseCommit =
      .error panicNoParent :=
  ⟨(c10_compute_base_unwrap sampleRepo1 sampleState1 baseCommit).1
      (fun first h => by
        have hf : first = pn1 := by
          have : some pn1 = some first := h
          injection this with h2
          exact h2.symm
        subst hf
        exact ⟨{ commit := patchCommit1 }, by decide, by decide⟩),
   (c10_compute_base_unwrap sampleRepo1 sampleStateNoParent baseCommit).2
      pn2 [] { commit := baseCommit } rfl (by decide) rfl⟩

/-! Claim C8: deinitialization. -/

/-- C8: deinit deletes the stack state reference and every reference under
the branch's patch-ref namespace, leaves all other references and the
commit objects untouched, and removes the branch-scoped configuration
section best-effort: a missing section is not an error and the cleanup
outcome never affects the result. -/
theorem c8_deinit_spec (repo : Repo) (stack : Stack) (t : RefTarget)
    (href : lookupRef repo.refs stack.stack_refname = some t) :
    ∃ repo', deinit repo stack = .ok repo' ∧
      lookupRef repo'.refs stack.stack_refname = none ∧
      (∀ name,
        (get_patch_refname stack.branch_name []).isPrefixOf name = true →
        lookupRef repo'.refs name = none) ∧
      (∀ name,
        (get_patch_refname stack.branch_name []).isPrefixOf name = false →
        name ≠ stack.stack_refname →
        lookupRef repo'.refs name = lookupRef repo.refs name) ∧
      repo'.commits = repo.commits ∧
      repo'.states = repo.states ∧
      (branch_stgit_section stack.branch_name ∈ repo.config_sections →
        repo'.config_sections = repo.config_sections.filter
          (fun s => !decide (s = branch_stgit_section stack.branch_name))) ∧
      (branch_stgit_section stack.branch_name ∉ repo.config_sections →
        repo'.config_sections = repo.config_sections) := by
  have hform : deinit repo stack = .ok
      { repo with
        refs := deleteRef
          (repo.refs.filter
            (fun r =>
              !((get_patch_refname stack.branch_name []).isPrefixOf r.1)))
          stack.stack_refname
        config_sections :=
          match config_remove_section repo.config_sections
              (branch_stgit_section stack.branch_name) with
          | .ok cs => cs
          | .error _ => repo.config_sections } := by
    rw [deinit, href]
  refine ⟨_, hform, ?_, ?_, ?_, rfl, rfl, ?_, ?_⟩
  · rw [lookupRef_deleteRef, if_pos rfl]
  · intro name hpre
    rw [lookupRef_deleteRef]
    by_cases hn : name = stack.stack_refname
    · rw [if_pos hn]
    · rw [if_neg hn]
      have h := lookupRef_filter_key repo.refs
        (fun x => !((get_patch_refname stack.branch_name []).isPrefixOf x))
        name
      rw [h, if_neg (by simp [hpre])]
  · intro name hpre hn
    rw [lookupRef_deleteRef, if_neg hn]
    have h := lookupRef_filter_key repo.refs
      (fun x => !((get_patch_refname stack.branch_name []).isPrefixOf x))
      name
    rw [h, if_pos (by simp [hpre])]
  · intro hmem
    simp only [config_remove_section, if_pos hmem]
  · intro habs
    simp only [config_remove_section, if_neg habs]

/-- Sample repository whose configuration holds the branch-scoped StGit
section. -/
def sampleRepoC8 : Repo :=
  { sampleRepo1 with config_sections := ["branch.main.stgit".data] }

/-- Witness for C8: deinitializing the sample repository removes the stack
state reference and the patch-ref namespace, and removes the branch-scoped
configuration section when it is present. -/
theorem c8_deinit_witness :
    (∃ repo', deinit sampleRepo1 stackTopMoved = .ok repo' ∧
      lookupRef repo'.refs stackTopMoved.stack_refname = none ∧
      lookupRef repo'.refs (get_patch_refname "main".data "p1".data) =
        none) ∧
    (∃ repo', deinit sampleRepoC8 stackTopMoved = .ok repo' ∧
      repo'.config_sections = []) := by
  obtain ⟨repo1x, h1, h2, h3, _⟩ :=
    c8_deinit_spec sampleRepo1 stackTopMoved (.peeled 11) (by decide)
  obtain ⟨repo2x, g1, _, _, _, _, _, gcfg, _⟩ :=
    c8_deinit_spec sampleRepoC8 stackTopMoved (.peeled 11) (by decide)
  refine ⟨⟨repo1x, h1, h2,
    h3 (get_patch_refname "main".data "p1".data) (by decide)⟩,
    repo2x, g1, ?_⟩
  rw [gcfg (by decide)]
  decide

/-! Claim C4: logging external modifications with compare-and-swap. -/

theorem find_commit_id (l : List Commit) (i : Nat) (c : Commit)
    (h : l.find? (fun x => decide (x.id = i)) = some c) : c.id = i := by
  induction l with
  | nil => exact Option.noConfusion h
  | cons x xs ih =>
    by_cases hx : x.id = i
    · rw [List.find?_cons_of_pos _ (by simp [hx])] at h
      cases h
      exact hx
    · rw [List.find?_cons_of_neg _ (by simp [hx])] at h
      exact ih h

theorem find_object_id (repo : Repo) (i : Nat) (c : Commit)
    (h : find_object repo i = some c) : c.id = i := by
  rw [find_object] at h
  exact find_commit_id repo.commits i c h

/-- C4: log_external_mods records a snapshot via advance_head whose head is
the branch head and whose prev is the state commit currently pointed to by
the stack reference, and publishes it with a reference update whose
expected previous value is exactly that prior state commit id; a store
whose stack reference no longer has that value makes the update fail with a
surfaced error and no retry. -/
theorem c4_log_external_mods_cas (repo : Repo) (stack : Stack)
    (message : Option Str) (prev_id : Nat) (prev_commit : Commit)
    (hinit : stack.is_initialized = true)
    (href : lookupRef repo.refs stack.stack_refname =
      some (.peeled prev_id))
    (hobj : find_object repo prev_id = some prev_commit) :
    ∃ stack' repo',
      log_external_mods repo stack message = .ok (stack', repo') ∧
      stack'.state.head = stack.branch_head ∧
      stack'.state.prev = some prev_id ∧
      stack'.state.applied = stack.state.applied ∧
      stack'.state.unapplied = stack.state.unapplied ∧
      stack'.state.hidden = stack.state.hidden ∧
      stack'.state.patches = stack.state.patches ∧
      (repo.nextId, stack'.state) ∈ repo'.states ∧
      lookupRef repo'.refs stack.stack_refname =
        some (.peeled repo.nextId) ∧
      (∀ n, n ≠ stack.stack_refname →
        lookupRef repo'.refs n = lookupRef repo.refs n) ∧
      (∀ rs : RefStore,
        lookupRef rs stack.stack_refname ≠ some (.peeled prev_id) →
        edit_reference rs stack.stack_refname
            (.existingMustMatch (.peeled prev_id)) repo.nextId =
          .error casMismatchErr) := by
  have hid : prev_commit.id = prev_id := find_object_id repo prev_id prev_commit hobj
  have hrun : log_external_mods repo stack message = .ok
      ({ stack with
          state := stack.state.advance_head stack.branch_head prev_commit },
       { repo with
          commits :=
            { id := repo.nextId,
              parents :=
                (stack.state.advance_head stack.branch_head
                  prev_commit).prev.toList } :: repo.commits
          states := (repo.nextId,
            stack.state.advance_head stack.branch_head prev_commit) ::
              repo.states
          nextId := repo.nextId + 1
          refs := setRef repo.refs stack.stack_refname
            (.peeled repo.nextId) }) := by
    rw [log_external_mods]
    simp only [hinit, Bool.true_eq_false, if_false, href, hobj,
      peelTarget, StackState.commit, edit_reference]
    simp
  refine ⟨_, _, hrun, rfl, ?_, rfl, rfl, rfl, rfl, ?_, ?_, ?_, ?_⟩
  · simp [StackState.advance_head, hid]
  · exact List.mem_cons_self _ _
  · rw [lookupRef_setRef_eq, href]
    rfl
  · intro n hn
    exact lookupRef_setRef_ne repo.refs stack.stack_refname
      (.peeled repo.nextId) n hn
  · intro rs hne
    rw [edit_reference, if_neg hne]

/-- Witness for C4: logging external modifications on the sample
repository publishes the advanced snapshot under the stack reference. -/
theorem c4_log_external_mods_witness :
    ∃ stack' repo',
      log_external_mods sampleRepo1 stackTopMoved none = .ok (stack', repo') ∧
      stack'.state.prev = some 11 ∧
      lookupRef repo'.refs stackTopMoved.stack_refname =
        some (.peeled 20) := by
  obtain ⟨stack', repo', h1, _, h3, _, _, _, _, _, h9, _⟩ :=
    c4_log_external_mods_cas sampleRepo1 stackTopMoved none 11
      { id := 11, parents := [] } rfl (by decide) (by decide)
  exact ⟨stack', repo', h1, h3, h9⟩

/-! Lemmas about patch names, namespace prefixes and the patch map. -/

theorem PatchName.from_str_val (s : Str) (pn : PatchName)
    (h : PatchName.from_str s = some pn) : pn.val = s := by
  rw [PatchName.from_str] at h
  split at h
  · cases h
    rfl
  · exact Option.noConfusion h

theorem PatchName.from_str_self (pn : PatchName) :
    PatchName.from_str pn.val = some pn := by
  obtain ⟨s, h⟩ := pn
  rw [PatchName.from_str, dif_pos h]

theorem drop_append_self (p s : Str) : (p ++ s).drop p.length = s :=
  List.drop_left p s

theorem isPrefixOf_append_self (p s : Str) : p.isPrefixOf (p ++ s) = true := by
  rw [List.isPrefixOf_iff_prefix]
  exact List.prefix_append p s

theorem eq_append_drop_of_isPrefixOf (p n : Str)
    (h : p.isPrefixOf n = true) : n = p ++ n.drop p.length := by
  rw [List.isPrefixOf_iff_prefix] at h
  obtain ⟨t, ht⟩ := h
  rw [← ht, List.drop_left]

theorem drop_ne_of_ne (p n₁ n₂ : Str) (h₁ : p.isPrefixOf n₁ = true)
    (h₂ : p.isPrefixOf n₂ = true) (hne : n₁ ≠ n₂) :
    n₁.drop p.length ≠ n₂.drop p.length := by
  intro h
  apply hne
  rw [eq_append_drop_of_isPrefixOf p n₁ h₁,
    eq_append_drop_of_isPrefixOf p n₂ h₂, h]

theorem lookupPatch_nil (pn : PatchName) : lookupPatch [] pn = none := rfl

theorem lookupPatch_cons (p : PatchName × PatchState)
    (ps : List (PatchName × PatchState)) (pn : PatchName) :
    lookupPatch (p :: ps) pn =
      if p.1 = pn then some p.2 else lookupPatch ps pn := by
  by_cases h : p.1 = pn <;> simp [lookupPatch, List.find?, h]

theorem lookupPatch_filter_key (ps : List (PatchName × PatchState))
    (q : PatchName → Bool) (pn : PatchName) :
    lookupPatch (ps.filter (fun p => q p.1)) pn =
      if q pn then lookupPatch ps pn else none := by
  induction ps with
  | nil => by_cases h : q pn = true <;> simp [lookupPatch_nil, h]
  | cons p ps ih =>
    rw [List.filter_cons]
    by_cases hq : q p.1 = true
    · rw [if_pos hq, lookupPatch_cons]
      by_cases hpn : p.1 = pn
      · have hqn : q pn = true := hpn ▸ hq
        rw [if_pos hpn, if_pos hqn, lookupPatch_cons, if_pos hpn]
      · rw [if_neg hpn, ih, lookupPatch_cons]
        by_cases hqn : q pn = true
        · rw [if_pos hqn, if_pos hqn, if_neg hpn]
        · rw [if_neg hqn, if_neg hqn]
    · rw [if_neg hq, ih]
      by_cases hqn : q pn = true
      · have hpn : ¬p.1 = pn := fun h => hq (h ▸ hqn)
        rw [if_pos hqn, if_pos hqn, lookupPatch_cons, if_neg hpn]
      · rw [if_neg hqn, if_neg hqn]

theorem lookupPatch_erase (ps : List (PatchName × PatchState))
    (pn q : PatchName) :
    lookupPatch (ps.filter (fun p => !decide (p.1 = pn))) q =
      if q = pn then none else lookupPatch ps q := by
  have h := lookupPatch_filter_key ps (fun x => !decide (x = pn)) q
  rw [h]
  by_cases hq : q = pn
  · rw [if_pos hq, if_neg (by simp [hq])]
  · rw [if_neg hq, if_pos (by simp [hq])]

theorem lookupPatch_eq_some_of_mem (ps : List (PatchName × PatchState))
    (hnd : (ps.map Prod.fst).Nodup) (p : PatchName × PatchState)
    (hp : p ∈ ps) : lookupPatch ps p.1 = some p.2 := by
  induction ps with
  | nil => cases hp
  | cons a s ih =>
    rcases List.mem_cons.mp hp with h | h
    · subst h
      rw [lookupPatch_cons, if_pos rfl]
    · have ha : a.1 ≠ p.1 := by
        intro hEq
        have hm : p.1 ∈ s.map Prod.fst := List.mem_map_of_mem Prod.fst h
        rw [← hEq] at hm
        exact (List.nodup_cons.mp hnd).1 hm
      rw [lookupPatch_cons, if_neg ha]
      exact ih (List.nodup_cons.mp hnd).2 h

theorem mem_of_lookupPatch_eq_some (ps : List (PatchName × PatchState))
    (pn : PatchName) (d : PatchState) (h : lookupPatch ps pn = some d) :
    (pn, d) ∈ ps := by
  induction ps with
  | nil => exact Option.noConfusion h
  | cons p s ih =>
    rw [lookupPatch_cons] at h
    by_cases hp : p.1 = pn
    · rw [if_pos hp] at h
      have hpd : p = (pn, d) := by
        cases p with
        | mk a b =>
          cases hp
          cases h
          rfl
      exact hpd ▸ List.mem_cons_self p s
    · rw [if_neg hp] at h
      exact List.mem_cons_of_mem p (ih h)

theorem lookupPatch_ne_none_of_mem (ps : List (PatchName × PatchState))
    (p : PatchName × PatchState) (hp : p ∈ ps) :
    lookupPatch ps p.1 ≠ none := by
  induction ps with
  | nil => cases hp
  | cons a s ih =>
    rw [lookupPatch_cons]
    rcases List.mem_cons.mp hp with h | h
    · subst h
      rw [if_pos rfl]
      exact Option.noConfusion
    · by_cases ha : a.1 = p.1
      · rw [if_pos ha]
        exact Option.noConfusion
      · rw [if_neg ha]
        exact ih h

/-- The patch-ref namespace of a branch is never a prefix of the branch's
stack state reference name (`refs/patches/...` vs `refs/stacks/...`). -/
theorem ns_not_prefixOf_state_refname (bn bn' : Str) :
    (get_patch_refname bn []).isPrefixOf
      (state_refname_from_branch_name bn') = false := rfl

/-! Reconciliation with an empty patch map (used by stack initialization). -/

theorem ensure_loop_patches_nil (ns : Str) (it : List (Str × RefTarget))
    (store : RefStore) :
    ∃ store', ensure_loop ns it [] store = .ok (store', []) ∧
      (∀ n, (∀ t, (n, t) ∉ it) → lookupRef store' n = lookupRef store n) := by
  induction it generalizing store with
  | nil => exact ⟨store, rfl, fun n _ => rfl⟩
  | cons r rest ih =>
    obtain ⟨store', hrun, hpres⟩ := ih (deleteRef store r.1)
    refine ⟨store', ?_, ?_⟩
    · rw [ensure_loop]
      cases hp : PatchName.from_str (r.1.drop ns.length) with
      | none => simpa [hp] using hrun
      | some pn => simpa [hp, lookupPatch_nil] using hrun
    · intro n hn
      have hn' : ∀ t, (n, t) ∉ rest := fun t ht =>
        hn t (List.mem_cons_of_mem r ht)
      have hr : n ≠ r.1 := by
        intro hEq
        exact hn r.2 (by rw [hEq]; exact List.mem_cons_self r rest)
      rw [hpres n hn', lookupRef_deleteRef, if_neg hr]

theorem ensure_patch_refs_patches_nil (refs : RefStore) (bn : Str)
    (state : StackState) (hp : state.patches = []) :
    ∃ refs', ensure_patch_refs refs bn state = .ok refs' ∧
      (∀ n, (get_patch_refname bn []).isPrefixOf n = false →
        lookupRef refs' n = lookupRef refs n) := by
  obtain ⟨refs', hrun, hpres⟩ := ensure_loop_patches_nil
    (get_patch_refname bn [])
    (refs.filter (fun r => (get_patch_refname bn []).isPrefixOf r.1)) refs
  refine ⟨refs', ?_, ?_⟩
  · rw [ensure_patch_refs, hp, hrun]
    rfl
  · intro n hn
    refine hpres n (fun t ht => ?_)
    have := (List.mem_filter.mp ht).2
    rw [hn] at this
    exact Bool.noConfusion this

/-! Claim C1: from_branch initialization dispatch. -/

/-- Stack handle produced by from_branch when auto-initializing a branch
with no prior state. -/
def initStack (bn : Str) (head : Commit) : Stack :=
  { branch_name := bn, branch_head := head,
    stack_refname := state_refname_from_branch_name bn, base := head,
    state := StackState.new head, is_initialized := true }

/-- Repository produced by from_branch when auto-initializing: the empty
state commit is added and the reference store has been updated to the
reconciled store. -/
def initRepoAfter (repo : Repo) (head : Commit) (refs2 : RefStore) : Repo :=
  { repo with
    commits := { id := repo.nextId, parents := [] } :: repo.commits,
    states := (repo.nextId, StackState.new head) :: repo.states,
    nextId := repo.nextId + 1,
    refs := refs2 }

/-- C1: from_branch dispatches on existence of the stack state reference:
exists plus MustInit fails with the already-initialized error; missing plus
RequireInitialized fails with the not-initialized error; missing plus
AutoInit or MustInit constructs the empty stack state, commits it to the
state reference and returns a stack marked initialized; the error cases
return the repository unmutated. -/
theorem c1_from_branch_dispatch (repo : Repo) (bn : Str) (head : Commit) :
    (∀ t, lookupRef repo.refs (state_refname_from_branch_name bn) = some t →
      from_branch repo bn head .MustInit =
        .error (alreadyInitializedErr, repo)) ∧
    (lookupRef repo.refs (state_refname_from_branch_name bn) = none →
      from_branch repo bn head .RequireInitialized =
        .error (notInitializedErr, repo) ∧
      (∀ policy, policy = .AutoInit ∨ policy = .MustInit →
        ∃ stack repo',
          from_branch repo bn head policy = .ok (stack, repo') ∧
          stack.state = StackState.new head ∧
          (StackState.new head).applied = [] ∧
          (StackState.new head).unapplied = [] ∧
          (StackState.new head).hidden = [] ∧
          stack.is_initialized = true ∧
          (repo.nextId, StackState.new head) ∈ repo'.states ∧
          lookupRef repo'.refs (state_refname_from_branch_name bn) =
            some (.peeled repo.nextId))) := by
  have hcommit : (StackState.new head).commit repo
      (some (state_refname_from_branch_name bn)) "initialize".data =
      (if lookupRef repo.refs (state_refname_from_branch_name bn) = none
       then
        ({ repo with
            commits := { id := repo.nextId, parents := [] } :: repo.commits
            states := (repo.nextId, StackState.new head) :: repo.states
            nextId := repo.nextId + 1
            refs := insertRef repo.refs (state_refname_from_branch_name bn)
              (.peeled repo.nextId) }, repo.nextId)
       else
        ({ repo with
            commits := { id := repo.nextId, parents := [] } :: repo.commits
            states := (repo.nextId, StackState.new head) :: repo.states
            nextId := repo.nextId + 1
            refs := setRef repo.refs (state_refname_from_branch_name bn)
              (.peeled repo.nextId) }, repo.nextId)) := by
    rw [StackState.commit]
    split <;> rfl
  refine ⟨fun t ht => ?_, fun hnone => ⟨?_, fun policy hpol => ?_⟩⟩
  · rw [from_branch]
    simp only [stack_upgrade, ht]
    rfl
  · rw [from_branch]
    simp only [stack_upgrade, hnone]
    rfl
  · obtain ⟨refs', hens, hpres⟩ := ensure_patch_refs_patches_nil
      (insertRef repo.refs (state_refname_from_branch_name bn)
        (.peeled repo.nextId)) bn (StackState.new head) rfl
    have hlook : lookupRef refs' (state_refname_from_branch_name bn) =
        some (.peeled repo.nextId) := by
      rw [hpres (state_refname_from_branch_name bn)
        (ns_not_prefixOf_state_refname bn bn)]
      rw [lookupRef_insertRef, hnone, if_pos rfl]
      rfl
    rcases hpol with rfl | rfl
    · refine ⟨initStack bn head, initRepoAfter repo head refs',
        ?_, rfl, rfl, rfl, rfl, rfl, ?_, ?_⟩
      · rw [from_branch]
        simp only [stack_upgrade, hnone, hcommit, if_pos hnone]
        rw [if_neg (by decide), if_pos (by decide)]
        simp only [if_true, hens, initStack, initRepoAfter]
      · exact List.mem_cons_self _ _
      · exact hlook
    · refine ⟨initStack bn head, initRepoAfter repo head refs',
        ?_, rfl, rfl, rfl, rfl, rfl, ?_, ?_⟩
      · rw [from_branch]
        simp only [stack_upgrade, hnone, hcommit, if_pos hnone]
        rw [if_neg (by decide), if_pos (by decide)]
        simp only [if_true, hens, initStack, initRepoAfter]
      · exact List.mem_cons_self _ _
      · exact hlook

/-- Sample repository with no references or objects at all. -/
def emptyRepo : Repo :=
  { refs := [], commits := [], states := [], config_sections := [],
    nextId := 0 }

/-- Witness for C1: the three dispatch outcomes evaluated at concrete
repositories. -/
theorem c1_from_branch_dispatch_witness :
    from_branch sampleRepo1 "main".data baseCommit .MustInit =
      .error (alreadyInitializedErr, sampleRepo1) ∧
    from_branch emptyRepo "main".data baseCommit .RequireInitialized =
      .error (notInitializedErr, emptyRepo) ∧
    (∃ stack repo',
      from_branch emptyRepo "main".data baseCommit .AutoInit =
        .ok (stack, repo') ∧
      stack.state = StackState.new baseCommit ∧
      stack.is_initialized = true ∧
      lookupRef repo'.refs (state_refname_from_branch_name "main".data) =
        some (.peeled 0)) := by
  have h1 := (c1_from_branch_dispatch sampleRepo1 "main".data baseCommit).1
    (.peeled 11) (by decide)
  have h2 := (c1_from_branch_dispatch emptyRepo "main".data baseCommit).2 rfl
  obtain ⟨stack, repo', hrun, hstate, _, _, _, hinit, _, hlook⟩ :=
    h2.2 .AutoInit (Or.inl rfl)
  exact ⟨h1, h2.1, stack, repo', hrun, hstate, hinit, hlook⟩

/-! Claim C5: base computation on loading an existing stack. -/

/-- C5: for a stack loaded from an existing state reference, the base
commit equals the first parent of the first applied patch's commit when the
applied list is non-empty, and the branch head when it is empty. -/
theorem c5_base_computation (repo : Repo) (bn : Str) (head : Commit)
    (policy : InitializationPolicy) (stack : Stack) (repo' : Repo)
    (t : RefTarget)
    (href : lookupRef repo.refs (state_refname_from_branch_name bn) = some t)
    (hrun : from_branch repo bn head policy = .ok (stack, repo')) :
    (stack.state.applied = [] → stack.base = stack.branch_head) ∧
    (∀ first rest, stack.state.applied = first :: rest →
      ∃ desc, lookupPatch stack.state.patches first = some desc ∧
        desc.commit.parents.head? = some stack.base.id) := by
  rw [from_branch] at hrun
  simp only [stack_upgrade, href] at hrun
  by_cases hpol : policy = .MustInit
  · simp [hpol] at hrun
  · rw [if_neg hpol] at hrun
    cases t with
    | symbolic s => simp at hrun
    | peeled cid =>
      cases hst : StackState.from_commit repo cid with
      | none => simp [hst] at hrun
      | some state =>
        simp only [hst] at hrun
        cases hcb : compute_base repo state head with
        | error e => simp [hcb] at hrun
        | ok base =>
          simp only [hcb] at hrun
          cases hens : ensure_patch_refs repo.refs bn state with
          | error e => simp [hens] at hrun
          | ok refs2 =>
            simp only [hens, Except.ok.injEq, Prod.mk.injEq] at hrun
            obtain ⟨hstack, hrepo⟩ := hrun
            subst hstack
            constructor
            · intro hap
              have hap2 : state.applied = [] := hap
              rw [compute_base] at hcb
              simp only [hap2, List.head?] at hcb
              injection hcb with h
              exact h.symm
            · intro first rest hap
              have hap2 : state.applied = first :: rest := hap
              rw [compute_base] at hcb
              simp only [hap2, List.head?] at hcb
              cases hlp : lookupPatch state.patches first with
              | none => simp [hlp] at hcb
              | some desc =>
                simp only [hlp] at hcb
                cases hpp : desc.commit.parents with
                | nil => simp [hpp] at hcb
                | cons p ps =>
                  simp only [hpp, List.head?] at hcb
                  cases hfo : find_object repo p with
                  | none => simp [hfo] at hcb
                  | some obj =>
                    simp only [hfo, Except.ok.injEq] at hcb
                    refine ⟨desc, rfl, ?_⟩
                    have hoid : obj.id = p := find_object_id repo p obj hfo
                    show desc.commit.parents.head? = some base.id
                    rw [hpp, ← hcb, hoid]
                    rfl

/-- Sample branch head commit that moved past the stack top. -/
def branchHead9 : Commit := { id := 9, parents := [] }

/-- Stack produced by loading the sample repository's stack state. -/
def stackMainLoaded : Stack :=
  { branch_name := "main".data, branch_head := branchHead9,
    stack_refname := state_refname_from_branch_name "main".data,
    base := baseCommit, state := sampleState1, is_initialized := true }

/-- Repository produced by loading the sample repository's stack state:
reconciliation created the missing patch reference. -/
def repoMainLoaded : Repo :=
  { sampleRepo1 with
    refs := sampleRepo1.refs ++
      [(get_patch_refname "main".data "p1".data, .peeled 7)] }

/-- Witness for C5: loading the sample stack yields a base equal to the
first parent of the first applied patch's commit. -/
theorem c5_base_computation_witness :
    ∃ desc, lookupPatch stackMainLoaded.state.patches pn1 = some desc ∧
      desc.commit.parents.head? = some stackMainLoaded.base.id :=
  (c5_base_computation sampleRepo1 "main".data branchHead9
      .RequireInitialized stackMainLoaded repoMainLoaded (.peeled 11)
      (by decide) (by rfl)).2 pn1 [] rfl

/-! Claims C2 and C3: characterization of patch-reference reconciliation. -/

/-- The target a reference name under the patch-ref namespace should have
after reconciliation: the commit id of the patch its stripped name denotes,
or nothing (deletion) when the stripped name is not a known patch. -/
def ideal_patch_target (ns : Str) (patches : List (PatchName × PatchState))
    (name : Str) : Option RefTarget :=
  match PatchName.from_str (name.drop ns.length) with
  | none => none
  | some pn => (lookupPatch patches pn).map (fun d => .peeled d.commit.id)

/-- Whether some existing namespace reference's stripped name denotes the
given patch name. -/
def hitsName (ns : Str) (it : List (Str × RefTarget)) (pn : PatchName) :
    Bool :=
  it.any (fun r => decide (PatchName.from_str (r.1.drop ns.length) = some pn))

theorem hitsName_nil (ns : Str) (pn : PatchName) :
    hitsName ns [] pn = false := rfl

theorem hitsName_cons (ns : Str) (r : Str × RefTarget)
    (rest : List (Str × RefTarget)) (pn : PatchName) :
    hitsName ns (r :: rest) pn =
      (decide (PatchName.from_str (r.1.drop ns.length) = some pn) ||
        hitsName ns rest pn) := by
  rw [hitsName, List.any_cons]
  rfl

theorem ensure_loop_spec (ns : Str) (it : List (Str × RefTarget))
    (remaining : List (PatchName × PatchState)) (store : RefStore)
    (hpre : ∀ r ∈ it, ns.isPrefixOf r.1 = true)
    (hnd : (it.map Prod.fst).Nodup)
    (hsnap : ∀ r ∈ it, lookupRef store r.1 = some r.2) :
    ∃ store' remaining',
      ensure_loop ns it remaining store = .ok (store', remaining') ∧
      (∀ n, (∀ t, (n, t) ∉ it) → lookupRef store' n = lookupRef store n) ∧
      (∀ r ∈ it, lookupRef store' r.1 = ideal_patch_target ns remaining r.1) ∧
      (∀ pn, lookupPatch remaining' pn =
        if hitsName ns it pn then none else lookupPatch remaining pn) ∧
      List.Sublist remaining' remaining ∧
      (∀ n, lookupRef store n = none → lookupRef store' n = none) ∧
      ((store.map Prod.fst).Nodup → (store'.map Prod.fst).Nodup) := by
  induction it generalizing remaining store with
  | nil =>
    refine ⟨store, remaining, rfl, fun n _ => rfl, fun r hr => absurd hr
      (List.not_mem_nil r), fun pn => ?_, List.Sublist.refl remaining,
      fun n h => h, fun h => h⟩
    rw [hitsName_nil, if_neg (by simp)]
  | cons r rest ih =>
    obtain ⟨name, target⟩ := r
    have hpre_head : ns.isPrefixOf name = true :=
      hpre (name, target) (List.mem_cons_self _ _)
    have hname_notin : name ∉ rest.map Prod.fst := by
      exact (List.nodup_cons.mp hnd).1
    have hnd_rest : (rest.map Prod.fst).Nodup := (List.nodup_cons.mp hnd).2
    have hpre_rest : ∀ q ∈ rest, ns.isPrefixOf q.1 = true :=
      fun q hq => hpre q (List.mem_cons_of_mem _ hq)
    have hq_ne : ∀ q ∈ rest, q.1 ≠ name := by
      intro q hq hEq
      exact hname_notin (hEq ▸ List.mem_map_of_mem Prod.fst hq)
    have hsnap_head : lookupRef store name = some target :=
      hsnap (name, target) (List.mem_cons_self _ _)
    have hnotin_rest : ∀ t, (name, t) ∉ rest := by
      intro t ht
      exact hname_notin (List.mem_map_of_mem Prod.fst ht)
    cases hparse : PatchName.from_str (name.drop ns.length) with
    | none =>
      obtain ⟨store', remaining', hrun, h1, h2, h3, h4, h5, h6⟩ :=
        ih remaining (deleteRef store name) hpre_rest hnd_rest
          (fun q hq => by
            rw [lookupRef_deleteRef, if_neg (hq_ne q hq)]
            exact hsnap q (List.mem_cons_of_mem _ hq))
      refine ⟨store', remaining', ?_, ?_, ?_, ?_, h4, ?_, ?_⟩
      · rw [ensure_loop]
        simp only [hparse]
        exact hrun
      · intro n hn
        have hne : n ≠ name := by
          intro hEq
          exact hn target (hEq ▸ List.mem_cons_self _ _)
        rw [h1 n (fun t ht => hn t (List.mem_cons_of_mem _ ht)),
          lookupRef_deleteRef, if_neg hne]
      · intro q hq
        rcases List.mem_cons.mp hq with hEq | hq2
        · subst hEq
          rw [h1 name hnotin_rest, lookupRef_deleteRef, if_pos rfl,
            ideal_patch_target]
          simp only [hparse]
        · exact h2 q hq2
      · intro pn
        rw [h3 pn, hitsName_cons]
        simp only [hparse]
        rw [decide_eq_false (by exact fun h => Option.noConfusion h)]
        rw [Bool.false_or]
      · intro n h
        exact h5 n (lookupRef_eq_none_mono_deleteRef store name n h)
      · intro h
        refine h6 (List.Nodup.sublist ?_ h)
        exact List.Sublist.map Prod.fst (List.filter_sublist store)
    | some pn =>
      cases hlp : lookupPatch remaining pn with
      | none =>
        obtain ⟨store', remaining', hrun, h1, h2, h3, h4, h5, h6⟩ :=
          ih remaining (deleteRef store name) hpre_rest hnd_rest
            (fun q hq => by
              rw [lookupRef_deleteRef, if_neg (hq_ne q hq)]
              exact hsnap q (List.mem_cons_of_mem _ hq))
        refine ⟨store', remaining', ?_, ?_, ?_, ?_, h4, ?_, ?_⟩
        · rw [ensure_loop]
          simp only [hparse, hlp]
          exact hrun
        · intro n hn
          have hne : n ≠ name := by
            intro hEq
            exact hn target (hEq ▸ List.mem_cons_self _ _)
          rw [h1 n (fun t ht => hn t (List.mem_cons_of_mem _ ht)),
            lookupRef_deleteRef, if_neg hne]
        · intro q hq
          rcases List.mem_cons.mp hq with hEq | hq2
          · subst hEq
            rw [h1 name hnotin_rest, lookupRef_deleteRef, if_pos rfl,
              ideal_patch_target]
            simp [hparse, hlp]
          · exact h2 q hq2
        · intro pn'
          rw [h3 pn', hitsName_cons]
          simp only [hparse]
          by_cases hEq : pn' = pn
          · subst hEq
            simp only [decide_eq_true_eq]
            by_cases hh : hitsName ns rest pn'
            · simp [hh, hlp]
            · simp [hh, hlp]
          · rw [decide_eq_false (fun h => hEq (Option.some.inj h).symm)]
            rw [Bool.false_or]
        · intro n h
          exact h5 n (lookupRef_eq_none_mono_deleteRef store name n h)
        · intro h
          refine h6 (List.Nodup.sublist ?_ h)
          exact List.Sublist.map Prod.fst (List.filter_sublist store)
      | some desc =>
        -- Common facts for the keep/update/cas branches.
        have hpnval : pn.val = name.drop ns.length :=
          PatchName.from_str_val _ pn hparse
        have hlift : ∀ q ∈ rest, ideal_patch_target ns
            (remaining.filter (fun p => !decide (p.1 = pn))) q.1 =
            ideal_patch_target ns remaining q.1 := by
          intro q hq
          rw [ideal_patch_target, ideal_patch_target]
          cases hq2 : PatchName.from_str (q.1.drop ns.length) with
          | none => rfl
          | some pn' =>
            have hpn' : pn' ≠ pn := by
              intro hEq
              subst hEq
              have hv : pn'.val = q.1.drop ns.length :=
                PatchName.from_str_val _ pn' hq2
              exact drop_ne_of_ne ns q.1 name (hpre_rest q hq) hpre_head
                (hq_ne q hq) (by rw [← hv, hpnval])
            simp only [lookupPatch_erase, if_neg hpn']
        have hrem3 : ∀ pn', (if hitsName ns rest pn' then none
              else lookupPatch
                (remaining.filter (fun p => !decide (p.1 = pn))) pn') =
            (if hitsName ns ((name, target) :: rest) pn' then none
              else lookupPatch remaining pn') := by
          intro pn'
          rw [hitsName_cons]
          simp only [hparse]
          by_cases hEq : pn' = pn
          · subst hEq
            simp only [decide_eq_true_eq]
            by_cases hh : hitsName ns rest pn'
            · simp [hh]
            · simp [hh, lookupPatch_erase]
          · rw [decide_eq_false (fun h => hEq (Option.some.inj h).symm)]
            rw [Bool.false_or, lookupPatch_erase, if_neg hEq]
        cases target with
        | peeled existing_id =>
          by_cases hid : existing_id = desc.commit.id
          · -- Patch ref is good, nothing changes.
            obtain ⟨store', remaining', hrun, h1, h2, h3, h4, h5, h6⟩ :=
              ih (remaining.filter (fun p => !decide (p.1 = pn))) store
                hpre_rest hnd_rest
                (fun q hq => hsnap q (List.mem_cons_of_mem _ hq))
            refine ⟨store', remaining', ?_, ?_, ?_, ?_,
              List.Sublist.trans h4 (List.filter_sublist remaining), ?_, h6⟩
            · rw [ensure_loop]
              simp only [hparse, hlp, hid, if_pos]
              exact hrun
            · intro n hn
              exact h1 n (fun t ht => hn t (List.mem_cons_of_mem _ ht))
            · intro q hq
              rcases List.mem_cons.mp hq with hEq | hq2
              · subst hEq
                rw [h1 name hnotin_rest, hsnap_head, ideal_patch_target]
                simp [hparse, hlp, hid]
              · rw [h2 q hq2, hlift q hq2]
            · intro pn'
              rw [h3 pn', hrem3 pn']
            · exact h5
          · -- Force-update to the patch's commit id.
            obtain ⟨store', remaining', hrun, h1, h2, h3, h4, h5, h6⟩ :=
              ih (remaining.filter (fun p => !decide (p.1 = pn)))
                (setRef store name (.peeled desc.commit.id))
                hpre_rest hnd_rest
                (fun q hq => by
                  rw [lookupRef_setRef_ne store name _ q.1 (hq_ne q hq)]
                  exact hsnap q (List.mem_cons_of_mem _ hq))
            refine ⟨store', remaining', ?_, ?_, ?_, ?_,
              List.Sublist.trans h4 (List.filter_sublist remaining), ?_, ?_⟩
            · rw [ensure_loop]
              simp only [hparse, hlp, hid, if_neg]
              exact hrun
            · intro n hn
              have hne : n ≠ name := by
                intro hEq
                exact hn (.peeled existing_id) (hEq ▸ List.mem_cons_self _ _)
              rw [h1 n (fun t ht => hn t (List.mem_cons_of_mem _ ht)),
                lookupRef_setRef_ne store name _ n hne]
            · intro q hq
              rcases List.mem_cons.mp hq with hEq | hq2
              · subst hEq
                rw [h1 name hnotin_rest, lookupRef_setRef_eq, hsnap_head,
                  ideal_patch_target]
                simp [hparse, hlp]
              · rw [h2 q hq2, hlift q hq2]
            · intro pn'
              rw [h3 pn', hrem3 pn']
            · intro n h
              exact h5 n (lookupRef_eq_none_mono_setRef store name _ n h)
            · intro h
              refine h6 ?_
              rw [setRef_map_fst]
              exact h
        | symbolic sym =>
          -- Symbolic ref is rewritten to peeled form via compare-and-swap.
          obtain ⟨store', remaining', hrun, h1, h2, h3, h4, h5, h6⟩ :=
            ih (remaining.filter (fun p => !decide (p.1 = pn)))
              (setRef store name (.peeled desc.commit.id))
              hpre_rest hnd_rest
              (fun q hq => by
                rw [lookupRef_setRef_ne store name _ q.1 (hq_ne q hq)]
                exact hsnap q (List.mem_cons_of_mem _ hq))
          refine ⟨store', remaining', ?_, ?_, ?_, ?_,
            List.Sublist.trans h4 (List.filter_sublist remaining), ?_, ?_⟩
          · rw [ensure_loop]
            simp only [hparse, hlp, edit_reference, hsnap_head, if_pos]
            exact hrun
          · intro n hn
            have hne : n ≠ name := by
              intro hEq
              exact hn (.symbolic sym) (hEq ▸ List.mem_cons_self _ _)
            rw [h1 n (fun t ht => hn t (List.mem_cons_of_mem _ ht)),
              lookupRef_setRef_ne store name _ n hne]
          · intro q hq
            rcases List.mem_cons.mp hq with hEq | hq2
            · subst hEq
              rw [h1 name hnotin_rest, lookupRef_setRef_eq, hsnap_head,
                ideal_patch_target]
              simp [hparse, hlp]
            · rw [h2 q hq2, hlift q hq2]
          · intro pn'
            rw [h3 pn', hrem3 pn']
          · intro n h
            exact h5 n (lookupRef_eq_none_mono_setRef store name _ n h)
          · intro h
            refine h6 ?_
            rw [setRef_map_fst]
            exact h

theorem create_missing_spec (ns : Str) (rem : List (PatchName × PatchState))
    (store : RefStore)
    (hnd : (rem.map Prod.fst).Nodup)
    (habs : ∀ q ∈ rem, lookupRef store (ns ++ q.1.val) = none) :
    ∃ store', create_missing ns rem store = .ok store' ∧
      (∀ n, (∀ q ∈ rem, n ≠ ns ++ q.1.val) →
        lookupRef store' n = lookupRef store n) ∧
      (∀ q ∈ rem, lookupRef store' (ns ++ q.1.val) =
        some (.peeled q.2.commit.id)) ∧
      ((store.map Prod.fst).Nodup → (store'.map Prod.fst).Nodup) := by
  induction rem generalizing store with
  | nil =>
    exact ⟨store, rfl, fun n _ => rfl,
      fun q hq => absurd hq (List.not_mem_nil q), fun h => h⟩
  | cons p rest ih =>
    have habs_head : lookupRef store (ns ++ p.1.val) = none :=
      habs p (List.mem_cons_self _ _)
    have hstep : edit_reference store (ns ++ p.1.val) .mustNotExist
        p.2.commit.id =
        .ok (insertRef store (ns ++ p.1.val) (.peeled p.2.commit.id)) := by
      rw [edit_reference, if_pos habs_head]
    have hnd_rest : (rest.map Prod.fst).Nodup := (List.nodup_cons.mp hnd).2
    have hhead_notin : p.1 ∉ rest.map Prod.fst := (List.nodup_cons.mp hnd).1
    have hhead_ne : ∀ q ∈ rest, ns ++ p.1.val ≠ ns ++ q.1.val := by
      intro q hq hEq
      have hv : p.1.val = q.1.val := List.append_cancel_left hEq
      have : p.1 = q.1 := Subtype.ext hv
      exact hhead_notin (this ▸ List.mem_map_of_mem Prod.fst hq)
    obtain ⟨store', hrun, hA, hB, hC⟩ :=
      ih (insertRef store (ns ++ p.1.val) (.peeled p.2.commit.id)) hnd_rest
        (fun q hq => by
          rw [lookupRef_insertRef, habs q (List.mem_cons_of_mem _ hq),
            if_neg (hhead_ne q hq)]
          rfl)
    refine ⟨store', ?_, ?_, ?_, ?_⟩
    · rw [create_missing]
      simp only [hstep]
      exact hrun
    · intro n hn
      have hne : ¬(ns ++ p.1.val = n) := by
        intro hEq
        exact hn p (List.mem_cons_self _ _) hEq.symm
      rw [hA n (fun q hq => hn q (List.mem_cons_of_mem _ hq)),
        lookupRef_insertRef, if_neg hne]
      cases lookupRef store n <;> rfl
    · intro q hq
      rcases List.mem_cons.mp hq with hEq | hq2
      · subst hEq
        rw [hA (ns ++ q.1.val) (fun q2 hq2 => hhead_ne q2 hq2),
          lookupRef_insertRef, habs q (List.mem_cons_self _ _), if_pos rfl]
        rfl
      · exact hB q hq2
    · intro h
      refine hC ?_
      have hmap : (insertRef store (ns ++ p.1.val)
          (.peeled p.2.commit.id)).map Prod.fst =
          store.map Prod.fst ++ [ns ++ p.1.val] := by
        rw [insertRef, List.map_append]
        rfl
      rw [hmap, List.nodup_append]
      refine ⟨h, List.nodup_singleton _, ?_⟩
      intro a ha hb
      have : a = ns ++ p.1.val := by simpa using hb
      subst this
      exact (lookupRef_eq_none_iff_not_mem_keys store _).mp habs_head ha

theorem ensure_spec_main (refs : RefStore) (bn : Str) (state : StackState)
    (ns : Str) (hns : ns = get_patch_refname bn [])
    (hrefs : (refs.map Prod.fst).Nodup)
    (hpat : (state.patches.map Prod.fst).Nodup) :
    ∃ refs', ensure_patch_refs refs bn state = .ok refs' ∧
      (∀ n, lookupRef refs' n =
        if ns.isPrefixOf n = true
        then ideal_patch_target ns state.patches n
        else lookupRef refs n) ∧
      (refs'.map Prod.fst).Nodup := by
  subst hns
  obtain ⟨store1, rem1, hloop, hU, hI, hR, hS, hM, hN⟩ :=
    ensure_loop_spec (get_patch_refname bn [])
      (refs.filter
        (fun r => (get_patch_refname bn []).isPrefixOf r.1))
      state.patches refs
      (fun r hr => (List.mem_filter.mp hr).2)
      (List.Nodup.sublist
        (List.Sublist.map Prod.fst (List.filter_sublist refs)) hrefs)
      (fun r hr =>
        lookupRef_eq_some_of_mem refs hrefs r (List.mem_filter.mp hr).1)
  have hrem1nd : (rem1.map Prod.fst).Nodup :=
    List.Nodup.sublist (List.Sublist.map Prod.fst hS) hpat
  have factA : ∀ q ∈ rem1,
      hitsName (get_patch_refname bn [])
        (refs.filter
          (fun r => (get_patch_refname bn []).isPrefixOf r.1)) q.1 = false ∧
      lookupPatch state.patches q.1 = some q.2 := by
    intro q hq
    have hql : lookupPatch rem1 q.1 = some q.2 :=
      lookupPatch_eq_some_of_mem rem1 hrem1nd q hq
    rw [hR q.1] at hql
    by_cases hhh : hitsName (get_patch_refname bn [])
        (refs.filter
          (fun r => (get_patch_refname bn []).isPrefixOf r.1)) q.1 = true
    · rw [if_pos hhh] at hql
      exact absurd hql (fun h => Option.noConfusion h)
    · have hf : hitsName (get_patch_refname bn [])
          (refs.filter
            (fun r => (get_patch_refname bn []).isPrefixOf r.1)) q.1 =
          false := by
        cases h2 : hitsName (get_patch_refname bn [])
            (refs.filter
              (fun r => (get_patch_refname bn []).isPrefixOf r.1)) q.1
        · rfl
        · exact absurd h2 hhh
      rw [if_neg hhh] at hql
      exact ⟨hf, hql⟩
  have habs : ∀ q ∈ rem1,
      lookupRef store1 (get_patch_refname bn [] ++ q.1.val) = none := by
    intro q hq
    have hnotin : ∀ t, (get_patch_refname bn [] ++ q.1.val, t) ∉
        refs.filter
          (fun r => (get_patch_refname bn []).isPrefixOf r.1) := by
      intro t ht
      have hhits : hitsName (get_patch_refname bn [])
          (refs.filter
            (fun r => (get_patch_refname bn []).isPrefixOf r.1)) q.1 =
          true := by
        rw [hitsName, List.any_eq_true]
        refine ⟨(get_patch_refname bn [] ++ q.1.val, t), ht, ?_⟩
        rw [decide_eq_true_eq]
        show PatchName.from_str
          ((get_patch_refname bn [] ++ q.1.val).drop
            (get_patch_refname bn []).length) = some q.1
        rw [drop_append_self, PatchName.from_str_self]
      rw [(factA q hq).1] at hhits
      exact Bool.noConfusion hhits
    rw [hU _ hnotin]
    cases hlk : lookupRef refs (get_patch_refname bn [] ++ q.1.val) with
    | none => rfl
    | some t =>
      exact absurd
        (List.mem_filter.mpr
          ⟨mem_of_lookupRef_eq_some refs _ t hlk,
            isPrefixOf_append_self _ _⟩)
        (hnotin t)
  obtain ⟨refs', hcreate, cA, cB, cC⟩ :=
    create_missing_spec (get_patch_refname bn []) rem1 store1 hrem1nd habs
  refine ⟨refs', ?_, ?_, cC (hN hrefs)⟩
  · rw [ensure_patch_refs]
    simp only [hloop]
    exact hcreate
  · intro n
    by_cases hn : (get_patch_refname bn []).isPrefixOf n = true
    · rw [if_pos hn]
      by_cases hit : ∃ t, (n, t) ∈
          refs.filter
            (fun r => (get_patch_refname bn []).isPrefixOf r.1)
      · obtain ⟨t, hin⟩ := hit
        have hnc : ∀ q ∈ rem1, n ≠ get_patch_refname bn [] ++ q.1.val := by
          intro q hq hEq
          have hhits : hitsName (get_patch_refname bn [])
              (refs.filter
                (fun r => (get_patch_refname bn []).isPrefixOf r.1)) q.1 =
              true := by
            rw [hitsName, List.any_eq_true]
            refine ⟨(n, t), hin, ?_⟩
            rw [decide_eq_true_eq, hEq, drop_append_self,
              PatchName.from_str_self]
          rw [(factA q hq).1] at hhits
          exact Bool.noConfusion hhits
        rw [cA n hnc]
        exact hI (n, t) hin
      · have hnotin : ∀ t, (n, t) ∉
            refs.filter
              (fun r => (get_patch_refname bn []).isPrefixOf r.1) :=
          fun t ht => hit ⟨t, ht⟩
        have hrefsnone : lookupRef refs n = none := by
          cases hlk : lookupRef refs n with
          | none => rfl
          | some t =>
            exact absurd
              (List.mem_filter.mpr
                ⟨mem_of_lookupRef_eq_some refs n t hlk, hn⟩)
              (hnotin t)
        have hs1 : lookupRef store1 n = none := hM n hrefsnone
        cases hp : PatchName.from_str
            (n.drop (get_patch_refname bn []).length) with
        | none =>
          have hnc : ∀ q ∈ rem1,
              n ≠ get_patch_refname bn [] ++ q.1.val := by
            intro q hq hEq
            rw [hEq, drop_append_self, PatchName.from_str_self] at hp
            exact Option.noConfusion hp
          rw [cA n hnc, hs1, ideal_patch_target]
          simp only [hp]
        | some pn =>
          have hnval : n = get_patch_refname bn [] ++ pn.val := by
            have hv := PatchName.from_str_val _ pn hp
            rw [hv]
            exact eq_append_drop_of_isPrefixOf _ n hn
          cases hpp : lookupPatch state.patches pn with
          | some desc =>
            have hnohit : hitsName (get_patch_refname bn [])
                (refs.filter
                  (fun r => (get_patch_refname bn []).isPrefixOf r.1)) pn =
                false := by
              cases hhh : hitsName (get_patch_refname bn [])
                  (refs.filter
                    (fun r =>
                      (get_patch_refname bn []).isPrefixOf r.1)) pn
              · rfl
              · exfalso
                obtain ⟨r, hrin, hrparse⟩ := List.any_eq_true.mp hhh
                rw [decide_eq_true_eq] at hrparse
                have hrval : r.1 = n := by
                  have hv := PatchName.from_str_val _ pn hrparse
                  rw [hnval, hv]
                  exact eq_append_drop_of_isPrefixOf _ r.1
                    ((List.mem_filter.mp hrin).2)
                exact hnotin r.2 (by rw [← hrval]; exact hrin)
            have hrem1some : lookupPatch rem1 pn = some desc := by
              rw [hR pn, hnohit]
              simp only [Bool.false_eq_true, if_false]
              exact hpp
            have hmem : (pn, desc) ∈ rem1 :=
              mem_of_lookupPatch_eq_some rem1 pn desc hrem1some
            have hcreated := cB (pn, desc) hmem
            rw [hnval, hcreated, ideal_patch_target]
            simp only [drop_append_self, PatchName.from_str_self, hpp]
            rfl
          | none =>
            have hnc : ∀ q ∈ rem1,
                n ≠ get_patch_refname bn [] ++ q.1.val := by
              intro q hq hEq
              have hq1 : q.1 = pn := by
                rw [hEq, drop_append_self, PatchName.from_str_self] at hp
                exact Option.some.inj hp
              have h2 := (factA q hq).2
              rw [hq1, hpp] at h2
              exact Option.noConfusion h2
            rw [cA n hnc, hs1, ideal_patch_target]
            simp only [hp, hpp]
            rfl
    · rw [if_neg hn]
      have hnotin : ∀ t, (n, t) ∉
          refs.filter
            (fun r => (get_patch_refname bn []).isPrefixOf r.1) :=
        fun t ht => absurd (List.mem_filter.mp ht).2 hn
      have hnc : ∀ q ∈ rem1, n ≠ get_patch_refname bn [] ++ q.1.val := by
        intro q hq hEq
        rw [hEq] at hn
        exact hn (isPrefixOf_append_self _ _)
      rw [cA n hnc, hU n hnotin]

/-- C2: on every load, reconciliation maps each reference under the patch
namespace to its ideal target: a reference whose name denotes a known patch
ends up at (or stays at) the patch's commit id in peeled form, a reference
denoting no known patch is deleted, a known patch without a reference gets
one created, and references outside the namespace are untouched; the
creation primitive fails loudly when the reference exists. -/
theorem c2_ensure_patch_refs_reconciliation (refs : RefStore) (bn : Str)
    (state : StackState)
    (hrefs : (refs.map Prod.fst).Nodup)
    (hpat : (state.patches.map Prod.fst).Nodup) :
    ∃ refs', ensure_patch_refs refs bn state = .ok refs' ∧
      (∀ n, lookupRef refs' n =
        if (get_patch_refname bn []).isPrefixOf n = true
        then ideal_patch_target (get_patch_refname bn []) state.patches n
        else lookupRef refs n) ∧
      (∀ store n i, lookupRef store n ≠ none →
        edit_reference store n .mustNotExist i = .error mustNotExistErr) := by
  obtain ⟨refs', h1, h2, _⟩ :=
    ensure_spec_main refs bn state (get_patch_refname bn []) rfl hrefs hpat
  refine ⟨refs', h1, h2, ?_⟩
  intro store n i hne
  rw [edit_reference, if_neg hne]

/-- Sample stack state with one applied and one unapplied patch. -/
def stateC2 : StackState :=
  { applied := [pn1], unapplied := [pn2], hidden := [],
    patches := [(pn1, { commit := patchCommit1 }),
      (pn2, { commit := { id := 8, parents := [5] } })],
    head := patchCommit1, prev := none }

/-- Sample reference store with a good patch ref, a stale patch ref, an
orphaned patch ref, and the stack state reference. -/
def refsC2 : RefStore :=
  [(state_refname_from_branch_name "main".data, .peeled 11),
   (get_patch_refname "main".data "p1".data, .peeled 7),
   (get_patch_refname "main".data "p2".data, .peeled 9),
   (get_patch_refname "main".data "zz".data, .peeled 9)]

/-- Witness for C2: the reconciliation outcomes on the sample store. -/
theorem c2_ensure_patch_refs_reconciliation_witness :
    ∃ refs', ensure_patch_refs refsC2 "main".data stateC2 = .ok refs' ∧
      lookupRef refs' (get_patch_refname "main".data "p1".data) =
        some (.peeled 7) ∧
      lookupRef refs' (get_patch_refname "main".data "p2".data) =
        some (.peeled 8) ∧
      lookupRef refs' (get_patch_refname "main".data "zz".data) = none ∧
      lookupRef refs' (state_refname_from_branch_name "main".data) =
        some (.peeled 11) := by
  obtain ⟨refs', h1, h2, _⟩ := c2_ensure_patch_refs_reconciliation refsC2
    "main".data stateC2 (by decide) (by decide)
  refine ⟨refs', h1, ?_, ?_, ?_, ?_⟩ <;> rw [h2] <;> decide

theorem ensure_loop_noop (ns : Str) (it : List (Str × RefTarget))
    (remaining : List (PatchName × PatchState)) (store : RefStore)
    (hgood : ∀ r ∈ it, ∃ pn desc,
      PatchName.from_str (r.1.drop ns.length) = some pn ∧
      lookupPatch remaining pn = some desc ∧
      r.2 = .peeled desc.commit.id)
    (hpre : ∀ r ∈ it, ns.isPrefixOf r.1 = true)
    (hnd : (it.map Prod.fst).Nodup) :
    ∃ remaining', ensure_loop ns it remaining store =
      .ok (store, remaining') := by
  induction it generalizing remaining with
  | nil => exact ⟨remaining, rfl⟩
  | cons r rest ih =>
    obtain ⟨name, target⟩ := r
    obtain ⟨pn, desc, hparse, hlp, htgt⟩ :=
      hgood (name, target) (List.mem_cons_self _ _)
    have hpre_head : ns.isPrefixOf name = true :=
      hpre (name, target) (List.mem_cons_self _ _)
    have hname_notin : name ∉ rest.map Prod.fst := (List.nodup_cons.mp hnd).1
    have hq_ne : ∀ q ∈ rest, q.1 ≠ name := by
      intro q hq hEq
      exact hname_notin (hEq ▸ List.mem_map_of_mem Prod.fst hq)
    have hgood' : ∀ q ∈ rest, ∃ pn' desc',
        PatchName.from_str (q.1.drop ns.length) = some pn' ∧
        lookupPatch (remaining.filter (fun p => !decide (p.1 = pn))) pn' =
          some desc' ∧
        q.2 = .peeled desc'.commit.id := by
      intro q hq
      obtain ⟨pn', desc', hq1, hq2, hq3⟩ :=
        hgood q (List.mem_cons_of_mem _ hq)
      have hne : pn' ≠ pn := by
        intro hEq
        subst hEq
        have hv1 : pn'.val = q.1.drop ns.length :=
          PatchName.from_str_val _ pn' hq1
        have hv2 : pn'.val = name.drop ns.length :=
          PatchName.from_str_val _ pn' hparse
        exact drop_ne_of_ne ns q.1 name
          (hpre q (List.mem_cons_of_mem _ hq)) hpre_head (hq_ne q hq)
          (by rw [← hv1, hv2])
      refine ⟨pn', desc', hq1, ?_, hq3⟩
      rw [lookupPatch_erase, if_neg hne]
      exact hq2
    obtain ⟨remaining', hrun⟩ := ih
      (remaining.filter (fun p => !decide (p.1 = pn))) hgood'
      (fun q hq => hpre q (List.mem_cons_of_mem _ hq))
      (List.nodup_cons.mp hnd).2
    refine ⟨remaining', ?_⟩
    subst htgt
    rw [ensure_loop]
    simp only [hparse, hlp, if_pos]
    exact hrun

/-- C3: patch-reference reconciliation is idempotent: a second run on the
result of a successful run changes no references; on the reconciled store
every namespace reference maps to a known patch with a matching peeled
target, and every known patch has its reference, so nothing remains to
create. -/
theorem c3_ensure_patch_refs_idempotent (refs : RefStore) (bn : Str)
    (state : StackState)
    (hrefs : (refs.map Prod.fst).Nodup)
    (hpat : (state.patches.map Prod.fst).Nodup)
    (refs' : RefStore)
    (hrun : ensure_patch_refs refs bn state = .ok refs') :
    ensure_patch_refs refs' bn state = .ok refs' ∧
    (∀ r ∈ refs'.filter
        (fun r => (get_patch_refname bn []).isPrefixOf r.1),
      ∃ pn desc,
        PatchName.from_str (r.1.drop (get_patch_refname bn []).length) =
          some pn ∧
        lookupPatch state.patches pn = some desc ∧
        r.2 = .peeled desc.commit.id) ∧
    (∀ pn desc, lookupPatch state.patches pn = some desc →
      lookupRef refs' (get_patch_refname bn [] ++ pn.val) =
        some (.peeled desc.commit.id)) := by
  obtain ⟨refs'', hrun2, hchar, hnd'⟩ :=
    ensure_spec_main refs bn state (get_patch_refname bn []) rfl hrefs hpat
  have heq : refs'' = refs' := by
    rw [hrun] at hrun2
    exact (Except.ok.inj hrun2).symm
  subst heq
  have hcomplete : ∀ pn desc, lookupPatch state.patches pn = some desc →
      lookupRef refs'' (get_patch_refname bn [] ++ pn.val) =
        some (.peeled desc.commit.id) := by
    intro pn desc hpd
    rw [hchar, if_pos (isPrefixOf_append_self _ _), ideal_patch_target]
    simp only [drop_append_self, PatchName.from_str_self, hpd]
    rfl
  have hgood : ∀ r ∈ refs''.filter
      (fun r => (get_patch_refname bn []).isPrefixOf r.1),
      ∃ pn desc,
        PatchName.from_str (r.1.drop (get_patch_refname bn []).length) =
          some pn ∧
        lookupPatch state.patches pn = some desc ∧
        r.2 = .peeled desc.commit.id := by
    intro r hr
    have hmem := (List.mem_filter.mp hr).1
    have hprefix := (List.mem_filter.mp hr).2
    have hlk : lookupRef refs'' r.1 = some r.2 :=
      lookupRef_eq_some_of_mem refs'' hnd' r hmem
    rw [hchar, if_pos hprefix, ideal_patch_target] at hlk
    cases hp : PatchName.from_str
        (r.1.drop (get_patch_refname bn []).length) with
    | none =>
      simp only [hp] at hlk
      exact Option.noConfusion hlk
    | some pn =>
      simp only [hp] at hlk
      cases hlp : lookupPatch state.patches pn with
      | none =>
        rw [hlp] at hlk
        exact Option.noConfusion hlk
      | some desc =>
        rw [hlp] at hlk
        refine ⟨pn, desc, rfl, hlp, ?_⟩
        have h2 : some (RefTarget.peeled desc.commit.id) = some r.2 := hlk
        exact (Option.some.inj h2).symm
  refine ⟨?_, hgood, hcomplete⟩
  obtain ⟨rem2, hloop2⟩ := ensure_loop_noop (get_patch_refname bn [])
    (refs''.filter
      (fun r => (get_patch_refname bn []).isPrefixOf r.1))
    state.patches refs'' hgood
    (fun r hr => (List.mem_filter.mp hr).2)
    (List.Nodup.sublist
      (List.Sublist.map Prod.fst (List.filter_sublist refs'')) hnd')
  obtain ⟨storeX, remX, hloopX, _, _, hRX, hSX, _, _⟩ :=
    ensure_loop_spec (get_patch_refname bn [])
      (refs''.filter
        (fun r => (get_patch_refname bn []).isPrefixOf r.1))
      state.patches refs''
      (fun r hr => (List.mem_filter.mp hr).2)
      (List.Nodup.sublist
        (List.Sublist.map Prod.fst (List.filter_sublist refs'')) hnd')
      (fun r hr => lookupRef_eq_some_of_mem refs'' hnd' r
        (List.mem_filter.mp hr).1)
  rw [hloop2] at hloopX
  have hpair := Except.ok.inj hloopX
  have hremX : remX = rem2 := congrArg Prod.snd hpair.symm
  subst hremX
  have hrem2nd : (remX.map Prod.fst).Nodup :=
    List.Nodup.sublist (List.Sublist.map Prod.fst hSX) hpat
  have hrem2nil : remX = [] := by
    rw [List.eq_nil_iff_forall_not_mem]
    intro q hq
    have hql : lookupPatch remX q.1 = some q.2 :=
      lookupPatch_eq_some_of_mem remX hrem2nd q hq
    rw [hRX q.1] at hql
    by_cases hhh : hitsName (get_patch_refname bn [])
        (refs''.filter
          (fun r => (get_patch_refname bn []).isPrefixOf r.1)) q.1 = true
    · rw [if_pos hhh] at hql
      exact Option.noConfusion hql
    · rw [if_neg hhh] at hql
      apply hhh
      have hlkq := hcomplete q.1 q.2 hql
      have hmemq := mem_of_lookupRef_eq_some refs'' _ _ hlkq
      rw [hitsName, List.any_eq_true]
      refine ⟨(get_patch_refname bn [] ++ q.1.val,
        .peeled q.2.commit.id),
        List.mem_filter.mpr ⟨hmemq, isPrefixOf_append_self _ _⟩, ?_⟩
      rw [decide_eq_true_eq]
      show PatchName.from_str
        ((get_patch_refname bn [] ++ q.1.val).drop
          (get_patch_refname bn []).length) = some q.1
      rw [drop_append_self, PatchName.from_str_self]
  subst hrem2nil
  rw [ensure_patch_refs]
  simp only [hloop2]
  rfl

/-- Reference store after reconciling the sample store: the stale ref was
updated, the orphan deleted, the rest untouched. -/
def refsC2after : RefStore :=
  [(state_refname_from_branch_name "main".data, .peeled 11),
   (get_patch_refname "main".data "p1".data, .peeled 7),
   (get_patch_refname "main".data "p2".data, .peeled 8)]

/-- Witness for C3: a second reconciliation run on the reconciled sample
store changes nothing. -/
theorem c3_ensure_patch_refs_idempotent_witness :
    ensure_patch_refs refsC2after "main".data stateC2 = .ok refsC2after :=
  (c3_ensure_patch_refs_idempotent refsC2 "main".data stateC2 (by decide)
    (by decide) refsC2after (by rfl)).1
